import Mathlib

/-!
Shallow embedding of `src/python_tools/flowchart_layout_tool.py`
(draw.io flowchart standardized layout tool).

Modelling conventions:

* A diagram document is the list, in document order, of the id-carrying
  elements iterated by `mxGraphModel.iter()`.  Nested `mxGeometry` records
  are modelled as an optional field of their element (they carry no `id`
  attribute in this format, so they never enter the id index themselves);
  likewise `Array`/`mxPoint` waypoint decorations carry no id and are not
  modelled as separate elements.
* XML attributes are `Option String`; Python's truthiness test on
  `cell.get(attr)` is `truthy` below.
* Python `float` values are modelled as `Rat`; `float(<string>)` is
  modelled by `parseNum` (sign, integer digits, optional fraction —
  the formats this program reads and writes), which returns `none`
  exactly when Python's `float()` would raise `ValueError` on such input.
  `str(<float>)` is modelled by `numToStr`, which renders a decimal
  numeral (sign, integer digits, point, fraction digit); the exact digits
  chosen are irrelevant to every claim, only that the output is a numeral.
* Fallible code (a raised `ValueError` during node parsing) is modelled
  with `Except String`.
-/

/-- Truthiness of an optional string attribute, as Python evaluates
`cell.get(attr)` in boolean context: absent (`None`) or empty is false. -/
def truthy (o : Option String) : Bool :=
  match o with
  | some s => !s.isEmpty
  | none => false

/-- Substring containment, modelling Python's `sub in hay` on strings. -/
def strContains (hay sub : String) : Bool :=
  let h := hay.toList
  let n := sub.toList
  (List.range (h.length + 1)).any (fun i => ((h.drop i).take n.length) == n)

/-- Model of Python `str.lower()` (character-wise lowercasing; the styles
this program inspects are ASCII). -/
def toLowerStr (s : String) : String := ⟨s.toList.map Char.toLower⟩

/-- Numeric value of a decimal digit character. -/
def digitVal (c : Char) : Nat := c.toNat - 48

/-- Decimal digit test. -/
def isDigitChar (c : Char) : Bool := c.isDigit

/-- Value of a list of decimal digit characters, most significant first. -/
def digitsToNat (l : List Char) : Nat := l.foldl (fun a c => a * 10 + digitVal c) 0

/-- Model of Python `float(<string>)` on the numeral formats this program
reads and writes: optional sign, integer digits, optional point and
fraction digits; at least one digit overall.  `none` models a raised
`ValueError`.  (Exponents, infinities and surrounding whitespace, which
never occur in this pipeline's documents, are not modelled.)
`parseNumTail` handles the digits after the optional sign. -/
def parseNumTail (sign : Int) (l1 : List Char) : Option Rat :=
  let ip := l1.takeWhile isDigitChar
  let r1 := l1.dropWhile isDigitChar
  match r1 with
  | [] => if ip.isEmpty then none else some (mkRat (sign * (digitsToNat ip : Int)) 1)
  | '.' :: r2 =>
    let fp := r2.takeWhile isDigitChar
    let r3 := r2.dropWhile isDigitChar
    if !r3.isEmpty then none
    else if ip.isEmpty && fp.isEmpty then none
    else some (mkRat
      (sign * ((digitsToNat ip * 10 ^ fp.length + digitsToNat fp : Nat) : Int))
      (10 ^ fp.length))
  | _ => none

/-- Sign dispatch of `parseNumChars`. -/
def parseNumChars : List Char → Option Rat
  | '-' :: rest => parseNumTail (-1) rest
  | '+' :: rest => parseNumTail 1 rest
  | l => parseNumTail 1 l

/-- Model of Python `float(<string>)`; see `parseNumChars`. -/
def parseNum (s : String) : Option Rat := parseNumChars s.toList

/-- The character of a decimal digit (digits ≥ 10 never arise). -/
def natDigitChar : Nat → Char
  | 0 => '0'
  | 1 => '1'
  | 2 => '2'
  | 3 => '3'
  | 4 => '4'
  | 5 => '5'
  | 6 => '6'
  | 7 => '7'
  | 8 => '8'
  | 9 => '9'
  | _ => '0'

/-- Digits of a natural number, fueled so that it reduces by iota
(the fuel `n + 1` always suffices). -/
def natToCharsAux : Nat → Nat → List Char → List Char
  | 0, _, acc => acc
  | fuel + 1, n, acc =>
    if n < 10 then natDigitChar n :: acc
    else natToCharsAux fuel (n / 10) (natDigitChar (n % 10) :: acc)

/-- Decimal digits of a natural number, most significant first. -/
def natToChars (n : Nat) : List Char := natToCharsAux (n + 1) n []

/-- Model of Python `str(<float>)`: renders a decimal numeral
(optional sign, integer digits, point, one fraction digit).  Only the
shape matters to the claims — a numeral that `parseNum` accepts. -/
def numToStr (q : Rat) : String :=
  ⟨(if q.num < 0 then ['-'] else []) ++ natToChars (q.num.natAbs / q.den) ++
    ['.', natDigitChar (q.num.natAbs % q.den * 10 / q.den)]⟩

/-! ## Data model (source lines 32-64) -/

/-- `NodeType` enum. -/
inductive NodeType
  | START
  | END
  | PROCESS
  | DECISION
deriving DecidableEq

/-- `FlowNode` dataclass. -/
structure FlowNode where
  id : String
  node_type : NodeType
  label : String
  width : Rat
  height : Rat
  x : Rat := 0
  y : Rat := 0
deriving DecidableEq

/-- `FlowEdge` dataclass. -/
structure FlowEdge where
  id : String
  source_id : String
  target_id : String
  label : String := ""
  source_side : String := "SOUTH"
  target_side : String := "NORTH"
  routing_points : List (Rat × Rat) := []
deriving DecidableEq

/-- `FlowGraph` dataclass.  The node dict is modelled as an association
list with unique keys kept in insertion order (Python dict semantics). -/
structure FlowGraph where
  nodes : List (String × FlowNode) := []
  edges : List FlowEdge := []
deriving DecidableEq

/-- A nested `mxGeometry` record (the attributes the program reads/writes). -/
structure Geometry where
  x : Option String := none
  y : Option String := none
  width : Option String := none
  height : Option String := none
deriving DecidableEq

/-- A document element (`mxCell`): the attributes the program reads/writes. -/
structure Element where
  id : Option String := none
  parent : Option String := none
  source : Option String := none
  target : Option String := none
  edgeAttr : Option String := none
  vertexAttr : Option String := none
  connectable : Option String := none
  style : Option String := none
  value : Option String := none
  geometry : Option Geometry := none
deriving DecidableEq

/-- Decidable equality of extraction results (used by the concrete
checks). -/
instance : DecidableEq (Except String FlowGraph) := fun a b =>
  match a, b with
  | Except.ok x, Except.ok y =>
    if h : x = y then isTrue (by rw [h])
    else isFalse (by intro hc; injection hc; contradiction)
  | Except.error x, Except.error y =>
    if h : x = y then isTrue (by rw [h])
    else isFalse (by intro hc; injection hc; contradiction)
  | Except.ok _, Except.error _ => isFalse (by intro hc; cases hc)
  | Except.error _, Except.ok _ => isFalse (by intro hc; cases hc)

/-! ## Association-list operations with Python-dict semantics -/

/-- Dict lookup: first (hence unique) binding of the key. -/
def alist_get {α : Type} (k : String) : List (String × α) → Option α
  | [] => none
  | p :: rest => if p.1 == k then some p.2 else alist_get k rest

/-- Dict key-membership test. -/
def alist_hasKey {α : Type} (l : List (String × α)) (k : String) : Bool :=
  l.any (fun p => p.1 == k)

/-- Dict assignment `d[k] = v`: overwrites in place (keeping the position
of the first insertion) or appends. -/
def alist_insert {α : Type} (l : List (String × α)) (k : String) (v : α) :
    List (String × α) :=
  if alist_hasKey l k then l.map (fun p => if p.1 == k then (k, v) else p)
  else l ++ [(k, v)]

/-! ## Document Extractor (`DrawioParser`, source lines 68-170) -/

namespace DrawioParser

/-- `cell_map` construction (lines 97-99): every id-carrying element is
indexed; a repeated id overwrites the stored element (dict assignment). -/
def buildCellMapGo (acc : List (String × Element)) : List Element → List (String × Element)
  | [] => acc
  | c :: rest =>
    match c.id with
    | some cid =>
      if cid.isEmpty then buildCellMapGo acc rest
      else buildCellMapGo (alist_insert acc cid c) rest
    | none => buildCellMapGo acc rest

/-- The id → element index over the whole document. -/
def buildCellMap (doc : List Element) : List (String × Element) :=
  buildCellMapGo [] doc

/-- `_is_edge` (line 111-112). -/
def is_edge (c : Element) : Bool :=
  c.edgeAttr == some "1" || (truthy c.source && truthy c.target)

/-- `_is_node` (lines 114-124). -/
def is_node (m : List (String × Element)) (c : Element) : Bool :=
  if c.id == some "0" || c.id == some "1" || c.geometry == none || is_edge c then
    false
  else if strContains (toLowerStr (c.style.getD "")) "edgelabel" ||
      c.connectable == some "0" then
    false
  else if truthy c.parent && !(c.parent == some "0" || c.parent == some "1") then
    match alist_get (c.parent.getD "") m with
    | some p => !is_edge p
    | none => true
  else true

/-- Style-based role classification inside `_parse_node` (lines 133-136). -/
def styleClass (style : String) : NodeType :=
  let s_low := toLowerStr style
  if strContains s_low "rhombus" || strContains s_low "diamond" then NodeType.DECISION
  else if strContains s_low "ellipse" then NodeType.START
  else NodeType.PROCESS

/-- `_parse_node` (lines 126-138).  `none` models the `ValueError` raised
by `float()` on a present but non-numeric width/height attribute.  (The
missing-geometry branch is unreachable: `_is_node` requires a geometry.) -/
def parse_node (cid : String) (c : Element) : Option FlowNode :=
  match c.geometry with
  | none => none
  | some geo =>
    match (match geo.width with | none => some (120 : Rat) | some s => parseNum s),
          (match geo.height with | none => some (60 : Rat) | some s => parseNum s) with
    | some w, some h =>
      some { id := cid, node_type := styleClass (c.style.getD ""),
             label := c.value.getD "", width := w, height := h }
    | _, _ => none

/-- The `FlowEdge` built by `_parse_edge` for an edge cell. -/
def mkEdge (cid : String) (c : Element) : FlowEdge :=
  { id := cid, source_id := c.source.getD "", target_id := c.target.getD "" }

/-- `_parse_edge` (lines 140-145): requires truthy source and target, and
appends only when no existing edge has the same (source, target) pair. -/
def parse_edge (g : FlowGraph) (cid : String) (c : Element) : FlowGraph :=
  if truthy c.source && truthy c.target then
    if g.edges.any (fun e =>
        e.source_id == c.source.getD "" && e.target_id == c.target.getD "") then g
    else { g with edges := g.edges ++ [mkEdge cid c] }
  else g

/-- The classification loop of `parse` (lines 101-105) over the id index. -/
def processCells (m : List (String × Element)) :
    List (String × Element) → FlowGraph → Except String FlowGraph
  | [], g => Except.ok g
  | (cid, c) :: rest, g =>
    if is_edge c then processCells m rest (parse_edge g cid c)
    else if is_node m c then
      match parse_node cid c with
      | some n => processCells m rest { g with nodes := alist_insert g.nodes cid n }
      | none => Except.error "ValueError: could not convert string to float"
    else processCells m rest g

/-- The y/yes → "yes", n/no → "no" mapping applied to an already lowercased
value; any other value leaves the label unchanged (lines 152-153, 158-159). -/
def applyLabel (old val : String) : String :=
  if val == "y" || val == "yes" then "yes"
  else if val == "n" || val == "no" then "no"
  else old

/-- The child scan of `_extract_edge_labels` (lines 155-160): the first
indexed element whose parent is the edge id and whose style contains the
(case-sensitive) marker `edgeLabel`. -/
def child_label_scan (m : List (String × Element)) (eid : String) : Option Element :=
  match m.find? (fun p => p.2.parent == some eid && strContains (p.2.style.getD "") "edgeLabel") with
  | some p => some p.2
  | none => none

/-- `_extract_edge_labels`, per edge (lines 147-160): if the edge's own
element has a truthy value, apply the mapping to it and stop (`continue`);
only otherwise scan the children. -/
def extract_edge_label (m : List (String × Element)) (e : FlowEdge) : FlowEdge :=
  let ownVal : Option String :=
    match alist_get e.id m with
    | some c => c.value
    | none => none
  if truthy ownVal then
    { e with label := applyLabel e.label (toLowerStr (ownVal.getD "")) }
  else
    match child_label_scan m e.id with
    | some ch => { e with label := applyLabel e.label (toLowerStr (ch.value.getD "")) }
    | none => e

/-- In-degree as computed by `_infer_node_types` (lines 162-167): edges
whose target is a node key increment that key's slot. -/
def inDeg (g : FlowGraph) (nid : String) : Nat :=
  (g.edges.filter (fun e => alist_hasKey g.nodes e.target_id && e.target_id == nid)).length

/-- Out-degree as computed by `_infer_node_types` (lines 162-167). -/
def outDeg (g : FlowGraph) (nid : String) : Nat :=
  (g.edges.filter (fun e => alist_hasKey g.nodes e.source_id && e.source_id == nid)).length

/-- `_infer_node_types` (lines 162-170): both overrides applied in order. -/
def infer_node_types (g : FlowGraph) : FlowGraph :=
  { g with nodes := g.nodes.map (fun p =>
      let t1 := if inDeg g p.1 = 0 ∧ 0 < outDeg g p.1 then NodeType.START else p.2.node_type
      let t2 := if outDeg g p.1 = 0 ∧ 0 < inDeg g p.1 then NodeType.END else t1
      (p.1, { p.2 with node_type := t2 })) }

/-- `parse` (lines 75-109), from the element list under the graph model:
build the id index, classify and parse each indexed cell, extract edge
labels, refine roles by connectivity. -/
def parse (doc : List Element) : Except String FlowGraph :=
  let m := buildCellMap doc
  match processCells m m { nodes := [], edges := [] } with
  | Except.error s => Except.error s
  | Except.ok g =>
    let g2 : FlowGraph := { g with edges := g.edges.map (extract_edge_label m) }
    Except.ok (infer_node_types g2)

end DrawioParser

/-! ## Layout Request Builder (`ELKLayoutEngine._build_elk_graph`, lines 190-263) -/

namespace ELKLayoutEngine

/-- A port descriptor of the layout request. -/
structure ElkPort where
  id : String
  side : String
deriving DecidableEq

/-- A node descriptor of the layout request. -/
structure ElkNodeDesc where
  id : String
  width : Rat
  height : Rat
  ports : List ElkPort
deriving DecidableEq

/-- An edge descriptor of the layout request; `priority` is the value of
the `org.eclipse.elk.layered.priority.direction` property. -/
structure ElkEdgeDesc where
  id : String
  sources : List String
  targets : List String
  priority : Nat
deriving DecidableEq

/-- The layout request: node and edge descriptors.  (The fixed global
`layoutOptions` map — algorithm, direction, spacing strings — is not
referenced by any claim and is omitted.) -/
structure ElkGraph where
  children : List ElkNodeDesc
  edges : List ElkEdgeDesc
deriving DecidableEq

/-- The four fixed-side ports of a node (lines 196-201). -/
def elk_ports (nid : String) : List ElkPort :=
  [{ id := nid ++ "_N", side := "NORTH" },
   { id := nid ++ "_S", side := "SOUTH" },
   { id := nid ++ "_E", side := "EAST" },
   { id := nid ++ "_W", side := "WEST" }]

/-- The edge-descriptor construction of `_build_elk_graph` (lines 209-237):
skip the edge if its source node is missing; otherwise default ports
source-SOUTH/target-NORTH and priority 10, overridden for DECISION
sources ("no" label → EAST, priority 1; otherwise SOUTH, priority 10);
START sources keep SOUTH.  `i` is the enumeration index used for the
fallback id. -/
def build_elk_edge (g : FlowGraph) (i : Nat) (edge : FlowEdge) : Option ElkEdgeDesc :=
  match alist_get edge.source_id g.nodes with
  | none => none
  | some src_node =>
    let src_port := edge.source_id ++ "_S"
    let tgt_port := edge.target_id ++ "_N"
    let edge_priority : Nat := 10
    let sp :=
      if src_node.node_type = NodeType.START then edge.source_id ++ "_S"
      else if src_node.node_type = NodeType.DECISION then
        (if edge.label = "no" then edge.source_id ++ "_E" else edge.source_id ++ "_S")
      else src_port
    let pr :=
      if src_node.node_type = NodeType.START then edge_priority
      else if src_node.node_type = NodeType.DECISION then
        (if edge.label = "no" then 1 else 10)
      else edge_priority
    some { id := if edge.id ≠ "" then edge.id else "e" ++ toString i,
           sources := [sp], targets := [tgt_port], priority := pr }

/-- `_build_elk_graph` (lines 190-263). -/
def build_elk_graph (g : FlowGraph) : ElkGraph :=
  { children := g.nodes.map (fun p =>
      { id := p.1, width := p.2.width, height := p.2.height, ports := elk_ports p.1 }),
    edges := g.edges.enum.filterMap (fun p => build_elk_edge g p.1 p.2) }

end ELKLayoutEngine

/-! ## Document Generator (`DrawioGenerator`, lines 343-406) -/

namespace DrawioGenerator

/-- The fixed role → style table of `_write_node` (lines 368-374). -/
def node_style (t : NodeType) : String :=
  let base := "html=1;whiteSpace=wrap;"
  match t with
  | NodeType.START => base ++ "ellipse;fillColor=#d5e8d4;strokeColor=#82b366;"
  | NodeType.END => base ++ "ellipse;fillColor=#f8cecc;strokeColor=#b85450;"
  | NodeType.PROCESS => base ++ "rounded=0;fillColor=#dae8fc;strokeColor=#6c8ebf;"
  | NodeType.DECISION => base ++ "rhombus;fillColor=#fff2cc;strokeColor=#d6b656;"

/-- `_write_node` (lines 367-383). -/
def write_node (n : FlowNode) : Element :=
  { id := some n.id, value := some n.label, style := some (node_style n.node_type),
    vertexAttr := some "1", parent := some "1",
    geometry := some { x := some (numToStr n.x), y := some (numToStr n.y),
                       width := some (numToStr n.width), height := some (numToStr n.height) } }

/-- The compass-letter → anchor-fraction table `pmap` (line 386). -/
def pmap (s : String) : Option (String × String) :=
  if s = "N" then some ("0.5", "0")
  else if s = "S" then some ("0.5", "1")
  else if s = "E" then some ("1", "0.5")
  else if s = "W" then some ("0", "0.5")
  else none

/-- `_write_edge` (lines 385-406).  (The nested waypoint `mxPoint` records
carry no id and are not modelled as document elements.) -/
def write_edge (e : FlowEdge) : Element :=
  let exy := (pmap e.source_side).getD ("0.5", "1")
  let ixy := (pmap e.target_side).getD ("0.5", "0")
  let style := "edgeStyle=orthogonalEdgeStyle;rounded=0;orthogonalLoop=1;jettySize=auto;html=1;"
    ++ "exitX=" ++ exy.1 ++ ";exitY=" ++ exy.2
    ++ ";entryX=" ++ ixy.1 ++ ";entryY=" ++ ixy.2 ++ ";entryPerimeter=0;"
  let lbl := if e.label = "yes" then "Y" else if e.label = "no" then "N" else ""
  { id := some e.id, value := some lbl, style := some style, edgeAttr := some "1",
    parent := some "1", source := some e.source_id, target := some e.target_id,
    geometry := some { x := none, y := none, width := none, height := none } }

/-- The reserved bootstrap element of id "0" (line 352). -/
def cell0 : Element := { id := some "0" }

/-- The reserved bootstrap element of id "1" (line 353). -/
def cell1 : Element := { id := some "1", parent := some "0" }

/-- `generate` (lines 347-365): the id-carrying elements of the produced
document, in document order. -/
def generate (g : FlowGraph) : List Element :=
  [cell0, cell1] ++ g.nodes.map (fun p => write_node p.2) ++ g.edges.map write_edge

end DrawioGenerator

/-! ## Command surface (`main`, lines 409-441) -/

/-- The fatal "Invalid draw.io file" precondition of `parse` (lines 90-95):
a document whose graph-model root is missing aborts extraction. -/
def parse_document (model_found : Bool) (doc : List Element) : Except String FlowGraph :=
  if !model_found then Except.error "Invalid draw.io file"
  else DrawioParser.parse doc

/-- Model of `main` (lines 409-441): the Node.js availability check exits
with code 1 on failure (lines 416-419); the pipeline (parse → layout →
generate) runs inside a try/except whose handler only logs the error and
prints a traceback (lines 436-439), after which `main` returns normally —
so the interpreter exits with code 0 whether the pipeline succeeded or
raised. -/
def main_exit (node_check_ok : Bool) (pipeline : Except String FlowGraph) : Nat :=
  if !node_check_ok then 1
  else
    match pipeline with
    | Except.ok _ => 0
    | Except.error _ => 0

/-! ## Edge projections and the spec's first-occurrence-wins dedup

`specEdgeCandidates` and `specDedupFirst` formalize the SPEC's words for
claim C8 ("no two edges share the same (source id, target id) pair —
duplicates are discarded at extraction time, first occurrence wins"):
the candidate edges are the edge-classified indexed elements with truthy
source and target, in index order, and the first candidate of each
(source, target) pair is kept.  They are compared against the source's
fold in `_parse_edge`. -/

/-- The (id, source, target) triple of a `FlowEdge`. -/
def tripOf (e : FlowEdge) : String × String × String :=
  (e.id, e.source_id, e.target_id)

/-- The (source, target) pair of a `FlowEdge`. -/
def pairOf (e : FlowEdge) : String × String := (e.source_id, e.target_id)

/-- Spec-side: the edge candidates of an id index, in index order. -/
def specEdgeCandidates (l : List (String × Element)) :
    List (String × String × String) :=
  l.filterMap (fun p =>
    if DrawioParser.is_edge p.2 && truthy p.2.source && truthy p.2.target then
      some (p.1, p.2.source.getD "", p.2.target.getD "")
    else none)

/-- Spec-side: keep a candidate only when its (source, target) pair is not
among the already-seen pairs. -/
def specDedupFirstAux (seen : List (String × String)) :
    List (String × String × String) → List (String × String × String)
  | [] => []
  | x :: rest =>
    if seen.any (fun q => q == x.2) then specDedupFirstAux seen rest
    else x :: specDedupFirstAux (x.2 :: seen) rest

/-- Spec-side: first occurrence wins per (source, target) pair. -/
def specDedupFirst (l : List (String × String × String)) :
    List (String × String × String) :=
  specDedupFirstAux [] l

/-! ## Observation helpers and concrete instances used by the claim checks -/

/-- The node-dict keys of an extraction result (empty on failure). -/
def parsedNodeKeys (r : Except String FlowGraph) : List String :=
  match r with
  | Except.ok g => g.nodes.map Prod.fst
  | Except.error _ => []

/-- The (source id, target id) pairs of an extraction result. -/
def parsedPairs (r : Except String FlowGraph) : List (String × String) :=
  match r with
  | Except.ok g => g.edges.map (fun e => (e.source_id, e.target_id))
  | Except.error _ => []

/-- The edge labels of an extraction result. -/
def parsedLabels (r : Except String FlowGraph) : List String :=
  match r with
  | Except.ok g => g.edges.map (fun e => e.label)
  | Except.error _ => []

/-- The role of the node at a given key in an extraction result. -/
def parsedRole (r : Except String FlowGraph) (k : String) : Option NodeType :=
  match r with
  | Except.ok g => (alist_get k g.nodes).map (fun n => n.node_type)
  | Except.error _ => none

/-- Whether extraction succeeded. -/
def exceptOk (r : Except String FlowGraph) : Bool :=
  match r with
  | Except.ok _ => true
  | Except.error _ => false

/-- A document holding a single edge element between nonexistent nodes. -/
def d2cex : List Element :=
  [{ id := some "e1", source := some "a", target := some "b", edgeAttr := some "1" }]

/-- A document with an edge whose own value is "maybe" and a child
edge-label decoration saying "yes". -/
def d5cex : List Element :=
  [{ id := some "e1", source := some "a", target := some "b", edgeAttr := some "1",
     value := some "maybe" },
   { id := some "lab1", parent := some "e1", style := some "edgeLabel;",
     value := some "yes" }]

/-- A node element whose geometry carries a non-numeric width. -/
def d6el : Element :=
  { id := some "n1", style := some "", geometry := some { width := some "abc" } }

/-- A document holding only `d6el`. -/
def d6cex : List Element := [d6el]

/-- An element with a geometry record that has no width/height attributes. -/
def elW6 : Element :=
  { id := some "n2", style := some "",
    geometry := some { x := none, y := none, width := none, height := none } }

/-- First element of a duplicated id. -/
def c7a : Element := { id := some "x", value := some "first" }

/-- Second element of a duplicated id. -/
def c7b : Element := { id := some "x", value := some "second" }

/-- A graph holding a single isolated END node. -/
def gC4cex : FlowGraph :=
  { nodes := [("n1", { id := "n1", node_type := NodeType.END, label := "",
                       width := 120, height := 60 })],
    edges := [] }

/-- A well-formed START → DECISION → END graph with a "no" branch. -/
def gRT : FlowGraph :=
  { nodes := [("a", { id := "a", node_type := NodeType.START, label := "go",
                      width := 120, height := 60 }),
              ("d", { id := "d", node_type := NodeType.DECISION, label := "ok?",
                      width := 100, height := 80 }),
              ("b", { id := "b", node_type := NodeType.END, label := "",
                      width := 120, height := 60 })],
    edges := [{ id := "e1", source_id := "a", target_id := "d" },
              { id := "e2", source_id := "d", target_id := "b", label := "no" }] }

/-- A graph with one node and an edge whose target node does not exist. -/
def gW10 : FlowGraph :=
  { nodes := [("a", { id := "a", node_type := NodeType.START, label := "",
                      width := 120, height := 60 })],
    edges := [{ id := "e1", source_id := "a", target_id := "zzz" }] }

/-! ## Helper lemmas: association lists -/

theorem alist_hasKey_keys {α : Type} (l : List (String × α)) (k : String) :
    alist_hasKey l k = (l.map Prod.fst).any (fun s => s == k) := by
  induction l with
  | nil => rfl
  | cons p rest ih => simp [alist_hasKey, List.any_cons, List.map_cons] at ih ⊢; rw [ih]

theorem alist_hasKey_false_of_not_mem {α : Type} {l : List (String × α)} {k : String}
    (h : k ∉ l.map Prod.fst) : alist_hasKey l k = false := by
  rw [alist_hasKey_keys]
  simp only [List.any_eq_false]
  intro s hs
  simp only [beq_iff_eq]
  intro hsk
  exact h (hsk ▸ hs)

theorem not_mem_of_alist_hasKey_false {α : Type} {l : List (String × α)} {k : String}
    (h : alist_hasKey l k = false) : k ∉ l.map Prod.fst := by
  rw [alist_hasKey_keys] at h
  simp only [List.any_eq_false] at h
  intro hmem
  have := h k hmem
  simp at this

theorem alist_get_eq_none_of_hasKey_false {α : Type} {l : List (String × α)} {k : String}
    (h : alist_hasKey l k = false) : alist_get k l = none := by
  induction l with
  | nil => rfl
  | cons p rest ih =>
    simp only [alist_hasKey, List.any_cons, Bool.or_eq_false_iff] at h
    simp only [alist_get, h.1, if_false]
    exact ih (by simp [alist_hasKey, h.2])

theorem alist_get_append {α : Type} (k : String) (l1 l2 : List (String × α)) :
    alist_get k (l1 ++ l2) =
      match alist_get k l1 with
      | some v => some v
      | none => alist_get k l2 := by
  induction l1 with
  | nil => rfl
  | cons p rest ih =>
    by_cases hpk : p.1 == k
    · simp [alist_get, hpk]
    · simp only [Bool.not_eq_true] at hpk
      simp [alist_get, hpk, ih]

theorem alist_get_overwrite_self {α : Type} (l : List (String × α)) (k : String) (v : α)
    (hk : alist_hasKey l k = true) :
    alist_get k (l.map (fun p => if p.1 == k then (k, v) else p)) = some v := by
  induction l with
  | nil => simp [alist_hasKey] at hk
  | cons p rest ih =>
    by_cases hpk : p.1 == k
    · simp [alist_get, hpk]
    · simp only [Bool.not_eq_true] at hpk
      have hrest : alist_hasKey rest k = true := by
        simpa [alist_hasKey, List.any_cons, hpk] using hk
      have ih2 := ih hrest
      simp only [alist_get, List.map_cons, hpk, Bool.false_eq_true, if_false] at ih2 ⊢
      exact ih2

theorem alist_get_overwrite_ne {α : Type} (l : List (String × α)) (k k' : String) (v : α)
    (hne : k' ≠ k) :
    alist_get k (l.map (fun p => if p.1 == k' then (k', v) else p)) = alist_get k l := by
  induction l with
  | nil => rfl
  | cons p rest ih =>
    by_cases hpk : p.1 == k'
    · have hp1 : p.1 = k' := by simpa using hpk
      have h1 : (k' == k) = false := by simp [hne]
      have h2 : (p.1 == k) = false := by simp [hp1, hne]
      simp only [alist_get, List.map_cons, hpk, if_true, h1, h2, Bool.false_eq_true,
        if_false]
      exact ih
    · simp only [Bool.not_eq_true] at hpk
      simp only [alist_get, List.map_cons, hpk, Bool.false_eq_true, if_false]
      by_cases hp2 : p.1 == k
      · simp [hp2]
      · simp only [Bool.not_eq_true] at hp2
        simp only [hp2, Bool.false_eq_true, if_false]
        exact ih

theorem alist_get_insert_self {α : Type} (l : List (String × α)) (k : String) (v : α) :
    alist_get k (alist_insert l k v) = some v := by
  unfold alist_insert
  by_cases hk : alist_hasKey l k
  · rw [if_pos hk]
    exact alist_get_overwrite_self l k v hk
  · rw [if_neg hk]
    rw [alist_get_append, alist_get_eq_none_of_hasKey_false (by simpa using hk)]
    simp [alist_get]

theorem alist_get_insert_ne {α : Type} (l : List (String × α)) (k k' : String) (v : α)
    (hne : k' ≠ k) : alist_get k (alist_insert l k' v) = alist_get k l := by
  unfold alist_insert
  by_cases hk : alist_hasKey l k'
  · rw [if_pos hk]
    exact alist_get_overwrite_ne l k k' v hne
  · rw [if_neg hk]
    rw [alist_get_append]
    have h1 : (k' == k) = false := by simp [hne]
    cases hg : alist_get k l with
    | some v' => simp
    | none => simp [alist_get, h1]


theorem getLast?_cons_eq {α : Type} (a : α) (l : List α) :
    (a :: l).getLast? =
      match l.getLast? with
      | some x => some x
      | none => some a := by
  induction l generalizing a with
  | nil => rfl
  | cons b l ih =>
    rw [show (a :: b :: l).getLast? = (b :: l).getLast? from rfl, ih b]
    cases hl : l.getLast? with
    | some x => rfl
    | none => rfl

theorem overwrite_keys {α : Type} (l : List (String × α)) (k : String) (v : α) :
    (l.map (fun p => if p.1 == k then (k, v) else p)).map Prod.fst = l.map Prod.fst := by
  rw [List.map_map]
  apply List.map_congr_left
  intro p _
  by_cases hpk : p.1 == k
  · have hp1 : p.1 = k := by simpa using hpk
    simp [Function.comp, hpk, hp1]
  · simp only [Bool.not_eq_true] at hpk
    simp [Function.comp, hpk]

theorem alist_insert_keys {α : Type} (l : List (String × α)) (k : String) (v : α) :
    (alist_insert l k v).map Prod.fst =
      if alist_hasKey l k then l.map Prod.fst else l.map Prod.fst ++ [k] := by
  unfold alist_insert
  by_cases hk : alist_hasKey l k
  · rw [if_pos hk, if_pos hk, overwrite_keys]
  · rw [if_neg hk, if_neg hk, List.map_append]
    rfl

theorem alist_insert_keys_nodup {α : Type} (l : List (String × α)) (k : String) (v : α)
    (h : (l.map Prod.fst).Nodup) : ((alist_insert l k v).map Prod.fst).Nodup := by
  rw [alist_insert_keys]
  by_cases hk : alist_hasKey l k
  · rwa [if_pos hk]
  · rw [if_neg hk]
    have hnotmem : k ∉ l.map Prod.fst := by
      apply not_mem_of_alist_hasKey_false
      simpa using hk
    simp [List.nodup_append, h, hnotmem]

namespace DrawioParser

theorem buildCellMapGo_get (doc : List Element) (acc : List (String × Element))
    (k : String) (hk : k ≠ "") :
    alist_get k (buildCellMapGo acc doc) =
      match (doc.filter (fun el => el.id == some k)).getLast? with
      | some el => some el
      | none => alist_get k acc := by
  induction doc generalizing acc with
  | nil => rfl
  | cons c rest ih =>
    cases hid : c.id with
    | none =>
      have hfilter : ¬ ((fun el => el.id == some k) c = true) := by simp [hid]
      rw [show buildCellMapGo acc (c :: rest) = buildCellMapGo acc rest by
        simp [buildCellMapGo, hid]]
      rw [@List.filter_cons_of_neg Element (fun el => el.id == some k) c rest hfilter]
      exact ih acc
    | some cid =>
      by_cases hemp : cid.isEmpty
      · have hcid : cid = "" := (String.isEmpty_iff cid).mp hemp
        have hfilter : ¬ ((fun el => el.id == some k) c = true) := by
          simp only [hid, Option.some.injEq, beq_iff_eq, hcid]
          exact fun hcon => hk hcon.symm
        rw [show buildCellMapGo acc (c :: rest) = buildCellMapGo acc rest by
          simp [buildCellMapGo, hid, hemp]]
        rw [@List.filter_cons_of_neg Element (fun el => el.id == some k) c rest hfilter]
        exact ih acc
      · have hstep : buildCellMapGo acc (c :: rest) =
            buildCellMapGo (alist_insert acc cid c) rest := by
          simp [buildCellMapGo, hid, hemp]
        rw [hstep]
        by_cases hck : cid = k
        · subst hck
          have hfilter : (fun el => el.id == some cid) c = true := by simp [hid]
          rw [@List.filter_cons_of_pos Element (fun el => el.id == some cid) c rest hfilter,
            getLast?_cons_eq]
          rw [ih (alist_insert acc cid c)]
          cases hl : (rest.filter (fun el => el.id == some cid)).getLast? with
          | some x => rfl
          | none =>
            simp only
            exact alist_get_insert_self acc cid c
        · have hfilter : ¬ ((fun el => el.id == some k) c = true) := by
            simp [hid, hck]
          rw [@List.filter_cons_of_neg Element (fun el => el.id == some k) c rest hfilter]
          rw [ih (alist_insert acc cid c)]
          cases hl : (rest.filter (fun el => el.id == some k)).getLast? with
          | some x => rfl
          | none =>
            simp only
            exact alist_get_insert_ne acc k cid c hck

theorem buildCellMap_get_last (doc : List Element) (k : String) (hk : k ≠ "") :
    alist_get k (buildCellMap doc) = (doc.filter (fun el => el.id == some k)).getLast? := by
  rw [buildCellMap, buildCellMapGo_get doc [] k hk]
  cases hl : (doc.filter (fun el => el.id == some k)).getLast? with
  | some x => rfl
  | none => rfl

end DrawioParser

/-- The edge element of `d2cex`. -/
def cellE2 : Element :=
  { id := some "e1", source := some "a", target := some "b", edgeAttr := some "1" }

/-- The graph extracted from `d2cex`. -/
def g2w : FlowGraph :=
  { nodes := [], edges := [{ id := "e1", source_id := "a", target_id := "b" }] }

/-- A two-node document: two plain nodes and one edge (for the C3 witness). -/
def d3w : List Element :=
  [{ id := some "n1", style := some "",
     geometry := some { width := some "120", height := some "60" } },
   { id := some "n2", style := some "",
     geometry := some { width := some "120", height := some "60" } },
   { id := some "e1", source := some "n1", target := some "n2", edgeAttr := some "1" }]

/-- The graph extracted from `d3w`: the connectivity pass forces "n1" to
START and "n2" to END. -/
def g3w : FlowGraph :=
  { nodes := [("n1", { id := "n1", node_type := NodeType.START, label := "",
                       width := 120, height := 60 }),
              ("n2", { id := "n2", node_type := NodeType.END, label := "",
                       width := 120, height := 60 })],
    edges := [{ id := "e1", source_id := "n1", target_id := "n2" }] }

/-! ## Claim C9 (code bug): exit code on pipeline failure -/

/-- Claim C9: the claim says the command exits non-zero whenever any
pipeline stage fails.  In the code, `main`'s exception handler only logs
the failure and returns, so the interpreter exits with code 0: here the
pipeline fails fatally (missing graph-model root) with Node.js available,
yet the exit code is 0. -/
theorem c9_exit_code_zero_on_pipeline_failure :
    main_exit true (parse_document false []) = 0 := rfl

/-! ## Claim C7 (corrected): duplicated ids in the id → element index -/

/-- Claim C7 counterexample: the claim says the index maps a duplicated id
to its first occurrence.  For the two-element document `[c7a, c7b]`
sharing id "x", the index maps "x" to `c7b`, the last occurrence, not to
`c7a`. -/
theorem c7_cex_last_occurrence_wins :
    alist_get "x" (DrawioParser.buildCellMap [c7a, c7b]) = some c7b ∧
    ¬ alist_get "x" (DrawioParser.buildCellMap [c7a, c7b]) = some c7a := by
  constructor
  · decide
  · decide

/-- Claim C7 amended: the id → element index maps each nonempty id to the
LAST element of the document carrying that id (dict assignment overwrites;
the entry keeps the position of the first occurrence but stores the last
element). -/
theorem c7_amended_index_last_wins (doc : List Element) (k : String) (hk : k ≠ "") :
    alist_get k (DrawioParser.buildCellMap doc) =
      (doc.filter (fun el => el.id == some k)).getLast? :=
  DrawioParser.buildCellMap_get_last doc k hk

/-- Witness for the amended C7 theorem at the concrete duplicated-id
document. -/
theorem c7_witness_check :
    alist_get "x" (DrawioParser.buildCellMap [c7a, c7b]) =
      ([c7a, c7b].filter (fun el => el.id == some "x")).getLast? :=
  c7_amended_index_last_wins [c7a, c7b] "x" (by decide)

/-! ## Claim C6 (corrected): size defaults and non-numeric sizes -/

/-- Claim C6 counterexample: the claim says extraction does not fail on a
non-numeric width/height and defaults the size.  On `d6el` (width "abc"),
`_parse_node` raises (`float("abc")`), and extraction of the document
fails instead of defaulting. -/
theorem c6_cex_nonnumeric_size_fails :
    DrawioParser.parse_node "n1" d6el = none ∧
    exceptOk (DrawioParser.parse d6cex) = false := by
  constructor
  · decide
  · decide

/-- Claim C6 amended: a node element whose geometry is missing the width
and height attributes is parsed with width 120.0 and height 60.0 exactly;
but a present, non-numeric width (or height) attribute makes node parsing
fail with an error (`float()` raises `ValueError`) rather than being
defaulted. -/
theorem c6_amended_size_defaults (cid : String) (c : Element) (geo : Geometry)
    (hgeo : c.geometry = some geo) :
    (geo.width = none → geo.height = none →
      ∃ n, DrawioParser.parse_node cid c = some n ∧ n.width = 120 ∧ n.height = 60) ∧
    (∀ s, geo.width = some s → parseNum s = none →
      DrawioParser.parse_node cid c = none) ∧
    (∀ s, geo.height = some s → parseNum s = none →
      DrawioParser.parse_node cid c = none) := by
  refine ⟨?_, ?_, ?_⟩
  · intro hw hh
    refine ⟨⟨cid, DrawioParser.styleClass (c.style.getD ""), c.value.getD "", 120, 60, 0, 0⟩,
      ?_, rfl, rfl⟩
    simp [DrawioParser.parse_node, hgeo, hw, hh]
  · intro s hs hpn
    simp only [DrawioParser.parse_node, hgeo, hs, hpn]
  · intro s hs hpn
    simp only [DrawioParser.parse_node, hgeo, hs, hpn]
    cases hw : (match geo.width with | none => some (120 : Rat) | some s => parseNum s) with
    | none => rfl
    | some w => rfl

/-- Witness for the amended C6 theorem: an element with an attribute-less
geometry record parses to the default 120 × 60 size. -/
theorem c6_witness_check :
    ∃ n, DrawioParser.parse_node "n2" elW6 = some n ∧ n.width = 120 ∧ n.height = 60 :=
  (c6_amended_size_defaults "n2" elW6
    { x := none, y := none, width := none, height := none } rfl).1 rfl rfl

/-! ## Claim C2 (corrected), counterexample part -/

/-- Claim C2 counterexample: the claim says an edge element referencing a
missing endpoint node is dropped during extraction.  Extracting `d2cex`
(one edge between nonexistent nodes "a" and "b") yields a graph whose
edge list contains the ("a","b") edge while its node mapping is empty. -/
theorem c2_cex_dangling_edge_kept :
    parsedPairs (DrawioParser.parse d2cex) = [("a", "b")] ∧
    parsedNodeKeys (DrawioParser.parse d2cex) = [] := by
  constructor
  · decide
  · decide

/-! ## Claim C5 (corrected), counterexample part -/

/-- Claim C5 counterexample: the claim says that when the edge element's
own value matches neither y/yes nor n/no, the extractor scans child
edge-label decorations.  In `d5cex` the edge's own value is "maybe"
(non-empty, unmatched) and a child decoration says "yes"; the code's
`continue` skips the child scan, so the label stays empty instead of
becoming "yes". -/
theorem c5_cex_own_value_blocks_child_scan :
    parsedLabels (DrawioParser.parse d5cex) = [""] ∧
    ¬ parsedLabels (DrawioParser.parse d5cex) = ["yes"] := by
  constructor
  · decide
  · decide

theorem mem_enumFrom_snd {α : Type} (l : List α) (n : Nat) (p : Nat × α)
    (h : p ∈ List.enumFrom n l) : p.2 ∈ l := by
  induction l generalizing n with
  | nil => cases h
  | cons a as ih =>
    cases h with
    | head => exact List.mem_cons_self a as
    | tail _ htail => exact List.mem_cons_of_mem a (ih (n + 1) htail)

/-! ## Claim C1 (confirmed): per-edge ports and priorities of the request -/

/-- Claim C1: every edge descriptor of the layout request targets the
NORTH port of its edge's target node, and is assigned the EAST source
port with priority 1 exactly when the source node is a DECISION and the
label is "no"; in every other case (DECISION with non-"no" label, START,
or any other role) it gets the SOUTH source port and priority 10. -/
theorem c1_request_ports_and_priority (g : FlowGraph) (d : ELKLayoutEngine.ElkEdgeDesc)
    (hd : d ∈ (ELKLayoutEngine.build_elk_graph g).edges) :
    ∃ e, e ∈ g.edges ∧ ∃ src, alist_get e.source_id g.nodes = some src ∧
      d.targets = [e.target_id ++ "_N"] ∧
      ((src.node_type = NodeType.DECISION ∧ e.label = "no" ∧
          d.sources = [e.source_id ++ "_E"] ∧ d.priority = 1) ∨
       (¬ (src.node_type = NodeType.DECISION ∧ e.label = "no") ∧
          d.sources = [e.source_id ++ "_S"] ∧ d.priority = 10)) := by
  simp only [ELKLayoutEngine.build_elk_graph, List.mem_filterMap] at hd
  obtain ⟨p, hp, hbuild⟩ := hd
  refine ⟨p.2, mem_enumFrom_snd g.edges 0 p hp, ?_⟩
  unfold ELKLayoutEngine.build_elk_edge at hbuild
  cases halg : alist_get p.2.source_id g.nodes with
  | none => rw [halg] at hbuild; exact absurd hbuild (by simp)
  | some src =>
    rw [halg] at hbuild
    refine ⟨src, rfl, ?_⟩
    simp only [Option.some.injEq] at hbuild
    subst hbuild
    cases htype : src.node_type with
    | START =>
      refine ⟨rfl, Or.inr ⟨?_, ?_, ?_⟩⟩
      · intro hcon
        cases hcon.1
      · simp
      · simp
    | END =>
      refine ⟨rfl, Or.inr ⟨?_, ?_, ?_⟩⟩
      · intro hcon
        cases hcon.1
      · simp
      · simp
    | PROCESS =>
      refine ⟨rfl, Or.inr ⟨?_, ?_, ?_⟩⟩
      · intro hcon
        cases hcon.1
      · simp
      · simp
    | DECISION =>
      by_cases hl : p.2.label = "no"
      · exact ⟨rfl, Or.inl ⟨rfl, hl, by simp [hl], by simp [hl]⟩⟩
      · refine ⟨rfl, Or.inr ⟨?_, ?_, ?_⟩⟩
        · intro hcon
          exact hl hcon.2
        · simp [hl]
        · simp [hl]

/-- Witness for the C1 theorem at the concrete DECISION graph `gRT`:
the "no" edge descriptor. -/
theorem c1_witness_check :
    ∃ e, e ∈ gRT.edges ∧ ∃ src, alist_get e.source_id gRT.nodes = some src ∧
      ({ id := "e2", sources := ["d_E"], targets := ["b_N"], priority := 1 }
          : ELKLayoutEngine.ElkEdgeDesc).targets = [e.target_id ++ "_N"] ∧
      ((src.node_type = NodeType.DECISION ∧ e.label = "no" ∧
          ({ id := "e2", sources := ["d_E"], targets := ["b_N"], priority := 1 }
              : ELKLayoutEngine.ElkEdgeDesc).sources = [e.source_id ++ "_E"] ∧
          ({ id := "e2", sources := ["d_E"], targets := ["b_N"], priority := 1 }
              : ELKLayoutEngine.ElkEdgeDesc).priority = 1) ∨
       (¬ (src.node_type = NodeType.DECISION ∧ e.label = "no") ∧
          ({ id := "e2", sources := ["d_E"], targets := ["b_N"], priority := 1 }
              : ELKLayoutEngine.ElkEdgeDesc).sources = [e.source_id ++ "_S"] ∧
          ({ id := "e2", sources := ["d_E"], targets := ["b_N"], priority := 1 }
              : ELKLayoutEngine.ElkEdgeDesc).priority = 10)) :=
  c1_request_ports_and_priority gRT
    { id := "e2", sources := ["d_E"], targets := ["b_N"], priority := 1 } (by decide)

/-! ## Claim C10 (confirmed): missing-source skip versus missing-target keep -/

/-- Claim C10: in the request builder, only a missing SOURCE node causes
an edge to be skipped; when the source node exists, a descriptor is built
(and included in the request when the edge is in the graph), and its
target port reference names the target node's NORTH port — whether or not
a node with the target id exists. -/
theorem c10_missing_source_skipped_missing_target_kept (g : FlowGraph) (i : Nat)
    (e : FlowEdge) :
    (alist_get e.source_id g.nodes = none →
      ELKLayoutEngine.build_elk_edge g i e = none) ∧
    (∀ src, alist_get e.source_id g.nodes = some src →
      ∃ d, ELKLayoutEngine.build_elk_edge g i e = some d ∧
        d.targets = [e.target_id ++ "_N"] ∧
        ((i, e) ∈ g.edges.enum → d ∈ (ELKLayoutEngine.build_elk_graph g).edges)) := by
  constructor
  · intro h
    unfold ELKLayoutEngine.build_elk_edge
    rw [h]
  · intro src h
    have hb : ∃ d, ELKLayoutEngine.build_elk_edge g i e = some d := by
      unfold ELKLayoutEngine.build_elk_edge
      rw [h]
      exact ⟨_, rfl⟩
    obtain ⟨d, hd⟩ := hb
    refine ⟨d, hd, ?_, ?_⟩
    · unfold ELKLayoutEngine.build_elk_edge at hd
      rw [h] at hd
      simp only [Option.some.injEq] at hd
      subst hd
      rfl
    · intro hmem
      simp only [ELKLayoutEngine.build_elk_graph, List.mem_filterMap]
      exact ⟨(i, e), hmem, hd⟩

/-- Witness for the C10 theorem: in `gW10` the edge's target id "zzz" is
not a node key, yet a descriptor is built, included in the request, and
targets "zzz"'s NORTH port. -/
theorem c10_witness_check :
    ∃ d, ELKLayoutEngine.build_elk_edge gW10 0
        { id := "e1", source_id := "a", target_id := "zzz" } = some d ∧
      d.targets = ["zzz" ++ "_N"] ∧
      ((0, ({ id := "e1", source_id := "a", target_id := "zzz" } : FlowEdge))
          ∈ gW10.edges.enum →
        d ∈ (ELKLayoutEngine.build_elk_graph gW10).edges) :=
  (c10_missing_source_skipped_missing_target_kept gW10 0
    { id := "e1", source_id := "a", target_id := "zzz" }).2
    { id := "a", node_type := NodeType.START, label := "", width := 120, height := 60 }
    (by decide)

/-! ## Helper lemmas: the spec-side dedup -/

theorem specDedupFirstAux_congr (l : List (String × String × String))
    (seen1 seen2 : List (String × String))
    (h : ∀ pr, seen1.any (fun q => q == pr) = seen2.any (fun q => q == pr)) :
    specDedupFirstAux seen1 l = specDedupFirstAux seen2 l := by
  induction l generalizing seen1 seen2 with
  | nil => rfl
  | cons x rest ih =>
    unfold specDedupFirstAux
    rw [h x.2]
    by_cases hx : seen2.any (fun q => q == x.2)
    · rw [if_pos hx, if_pos hx]
      exact ih seen1 seen2 h
    · rw [if_neg hx, if_neg hx]
      congr 1
      apply ih
      intro pr
      simp only [List.any_cons, h pr]

theorem specDedupFirstAux_nodup (l : List (String × String × String))
    (seen : List (String × String)) :
    (((specDedupFirstAux seen l).map (fun x => x.2)).Nodup ∧
      ∀ z ∈ specDedupFirstAux seen l, seen.any (fun q => q == z.2) = false) := by
  induction l generalizing seen with
  | nil => exact ⟨List.nodup_nil, by intro z hz; cases hz⟩
  | cons x rest ih =>
    unfold specDedupFirstAux
    by_cases hx : seen.any (fun q => q == x.2)
    · rw [if_pos hx]
      exact ih seen
    · rw [if_neg hx]
      have ih2 := ih (x.2 :: seen)
      constructor
      · rw [List.map_cons, List.nodup_cons]
        refine ⟨?_, ih2.1⟩
        intro hmem
        obtain ⟨z, hz, hz2⟩ := List.mem_map.mp hmem
        have := ih2.2 z hz
        simp only [List.any_cons, Bool.or_eq_false_iff] at this
        rw [hz2] at this
        simp at this
      · intro z hz
        cases hz with
        | head =>
          simp only [Bool.not_eq_true] at hx
          exact hx
        | tail _ htail =>
          have := ih2.2 z htail
          simp only [List.any_cons, Bool.or_eq_false_iff] at this
          exact this.2

theorem specDedupFirstAux_mem_pair (l : List (String × String × String))
    (seen : List (String × String)) (y : String × String × String) (hy : y ∈ l) :
    y.2 ∈ (specDedupFirstAux seen l).map (fun x => x.2) ∨
      seen.any (fun q => q == y.2) = true := by
  induction l generalizing seen with
  | nil => cases hy
  | cons x rest ih =>
    unfold specDedupFirstAux
    by_cases hx : seen.any (fun q => q == x.2)
    · rw [if_pos hx]
      cases hy with
      | head => exact Or.inr hx
      | tail _ htail => exact ih seen htail
    · rw [if_neg hx]
      cases hy with
      | head => exact Or.inl (by simp)
      | tail _ htail =>
        cases ih (x.2 :: seen) htail with
        | inl h => exact Or.inl (by simp [h])
        | inr h =>
          simp only [List.any_cons, Bool.or_eq_true] at h
          cases h with
          | inl h2 =>
            refine Or.inl ?_
            rw [List.map_cons]
            have : x.2 = y.2 := by simpa using h2
            rw [← this]
            exact List.mem_cons_self _ _
          | inr h2 => exact Or.inr h2

theorem specDedupFirstAux_of_nodup (l : List (String × String × String))
    (seen : List (String × String))
    (hfresh : ∀ x ∈ l, seen.any (fun q => q == x.2) = false)
    (hnodup : (l.map (fun x => x.2)).Nodup) :
    specDedupFirstAux seen l = l := by
  induction l generalizing seen with
  | nil => rfl
  | cons x rest ih =>
    unfold specDedupFirstAux
    rw [if_neg (by simp [hfresh x (List.mem_cons_self x rest)])]
    congr 1
    rw [List.map_cons, List.nodup_cons] at hnodup
    apply ih (x.2 :: seen) _ hnodup.2
    intro y hy
    simp only [List.any_cons, Bool.or_eq_false_iff]
    constructor
    · simp only [beq_eq_false_iff_ne, ne_eq]
      intro hcon
      exact hnodup.1 (hcon ▸ List.mem_map_of_mem (fun x => x.2) hy)
    · exact hfresh y (List.mem_cons_of_mem x hy)

theorem any_pair_beq (edges : List FlowEdge) (s t : String) :
    (edges.map pairOf).any (fun q => q == (s, t)) =
      edges.any (fun e => e.source_id == s && e.target_id == t) := by
  induction edges with
  | nil => rfl
  | cons e rest ih =>
    simp only [List.map_cons, List.any_cons, ih]
    rfl

namespace DrawioParser

theorem processCells_edges_trips (m : List (String × Element))
    (l : List (String × Element)) :
    ∀ (g g' : FlowGraph), processCells m l g = Except.ok g' →
      g'.edges.map tripOf =
        g.edges.map tripOf ++
          specDedupFirstAux (g.edges.map pairOf) (specEdgeCandidates l) := by
  induction l with
  | nil =>
    intro g g' h
    unfold processCells at h
    injection h with hgg
    subst hgg
    simp [specEdgeCandidates, specDedupFirstAux]
  | cons p rest ih =>
    intro g g' h
    obtain ⟨cid, c⟩ := p
    unfold processCells at h
    by_cases he : is_edge c
    · rw [if_pos he] at h
      by_cases ht : truthy c.source && truthy c.target
      · have hcand : specEdgeCandidates ((cid, c) :: rest) =
            (cid, c.source.getD "", c.target.getD "") :: specEdgeCandidates rest := by
          unfold specEdgeCandidates
          rw [List.filterMap_cons]
          simp [he, ht]
        rw [hcand]
        unfold parse_edge at h
        rw [if_pos ht] at h
        by_cases hdup : g.edges.any (fun e =>
            e.source_id == c.source.getD "" && e.target_id == c.target.getD "")
        · rw [if_pos hdup] at h
          have hseen : (g.edges.map pairOf).any
              (fun q => q == (c.source.getD "", c.target.getD "")) = true := by
            rw [any_pair_beq]
            exact hdup
          unfold specDedupFirstAux
          rw [if_pos hseen]
          exact ih g g' h
        · rw [if_neg hdup] at h
          have hseen : (g.edges.map pairOf).any
              (fun q => q == (c.source.getD "", c.target.getD "")) = false := by
            rw [any_pair_beq]
            simpa using hdup
          unfold specDedupFirstAux
          rw [if_neg (by simp [hseen])]
          have ih2 : g'.edges.map tripOf =
              (g.edges ++ [mkEdge cid c]).map tripOf ++
                specDedupFirstAux ((g.edges ++ [mkEdge cid c]).map pairOf)
                  (specEdgeCandidates rest) :=
            ih { g with edges := g.edges ++ [mkEdge cid c] } g' h
          rw [ih2, List.map_append, List.map_append, List.append_assoc]
          congr 1
          rw [show List.map tripOf [mkEdge cid c] =
            [(cid, c.source.getD "", c.target.getD "")] from rfl]
          rw [List.singleton_append]
          congr 1
          apply specDedupFirstAux_congr
          intro pr
          simp [List.any_append, List.any_cons, List.any_nil, Bool.or_comm, pairOf, mkEdge]
      · have hcand : specEdgeCandidates ((cid, c) :: rest) = specEdgeCandidates rest := by
          unfold specEdgeCandidates
          rw [List.filterMap_cons]
          simp only [Bool.not_eq_true] at ht
          simp [Bool.and_assoc, ht]
        rw [hcand]
        unfold parse_edge at h
        rw [if_neg (by simp only [Bool.not_eq_true] at ht ⊢; exact ht)] at h
        exact ih g g' h
    · rw [if_neg he] at h
      have hcand : specEdgeCandidates ((cid, c) :: rest) = specEdgeCandidates rest := by
        unfold specEdgeCandidates
        rw [List.filterMap_cons]
        simp only [Bool.not_eq_true] at he
        simp [he]
      rw [hcand]
      by_cases hn : is_node m c
      · rw [if_pos hn] at h
        cases hpn : parse_node cid c with
        | none => rw [hpn] at h; cases h
        | some n =>
          rw [hpn] at h
          exact ih { g with nodes := alist_insert g.nodes cid n } g' h
      · rw [if_neg hn] at h
        exact ih g g' h

end DrawioParser

namespace DrawioParser

theorem parse_ok_elim (doc : List Element) (g : FlowGraph)
    (h : parse doc = Except.ok g) :
    ∃ g1, processCells (buildCellMap doc) (buildCellMap doc) { nodes := [], edges := [] }
        = Except.ok g1 ∧
      g = infer_node_types
        { g1 with edges := g1.edges.map (extract_edge_label (buildCellMap doc)) } := by
  simp only [parse] at h
  cases hp : processCells (buildCellMap doc) (buildCellMap doc)
      { nodes := [], edges := [] } with
  | error s => rw [hp] at h; cases h
  | ok g1 =>
    rw [hp] at h
    injection h with h2
    exact ⟨g1, rfl, h2.symm⟩

theorem extract_edge_label_trip (m : List (String × Element)) (e : FlowEdge) :
    tripOf (extract_edge_label m e) = tripOf e := by
  simp only [extract_edge_label]
  split <;>
    first
      | rfl
      | (split <;> first
          | rfl
          | (split <;> rfl))

theorem infer_node_types_edges (g : FlowGraph) :
    (infer_node_types g).edges = g.edges := rfl

theorem infer_node_types_keys (g : FlowGraph) :
    (infer_node_types g).nodes.map Prod.fst = g.nodes.map Prod.fst := by
  unfold infer_node_types
  rw [List.map_map]
  apply List.map_congr_left
  intro p _
  rfl

theorem parse_edges_trips (doc : List Element) (g : FlowGraph)
    (h : parse doc = Except.ok g) :
    g.edges.map tripOf = specDedupFirst (specEdgeCandidates (buildCellMap doc)) := by
  obtain ⟨g1, hp, hg⟩ := parse_ok_elim doc g h
  have h1 := processCells_edges_trips (buildCellMap doc) (buildCellMap doc)
    { nodes := [], edges := [] } g1 hp
  have hge : g.edges = g1.edges.map (extract_edge_label (buildCellMap doc)) := by
    rw [hg]
    rfl
  rw [hge, List.map_map]
  have hco : (tripOf ∘ extract_edge_label (buildCellMap doc)) = tripOf := by
    funext e
    exact extract_edge_label_trip _ e
  rw [hco]
  simpa [specDedupFirst] using h1

end DrawioParser

theorem pair_comp_trip : ((fun (x : String × String × String) => x.2) ∘ tripOf) = pairOf := by
  funext e
  rfl

/-! ## Claim C8 (confirmed): edge dedup, first occurrence wins -/

/-- Claim C8: in any extracted graph no two edges share the same
(source id, target id) pair, and the edge list is exactly the
first-occurrence-wins dedup (`specDedupFirst`) of the edge candidates of
the id index, in index order — so when several edge elements share a
pair, the first one is kept and later duplicates are discarded. -/
theorem c8_edge_dedup_first_wins (doc : List Element) (g : FlowGraph)
    (h : DrawioParser.parse doc = Except.ok g) :
    List.Pairwise (fun e1 e2 =>
      ¬ (e1.source_id = e2.source_id ∧ e1.target_id = e2.target_id)) g.edges ∧
    g.edges.map tripOf =
      specDedupFirst (specEdgeCandidates (DrawioParser.buildCellMap doc)) := by
  have htrips := DrawioParser.parse_edges_trips doc g h
  refine ⟨?_, htrips⟩
  have hnodup : ((specDedupFirstAux []
      (specEdgeCandidates (DrawioParser.buildCellMap doc))).map (fun x => x.2)).Nodup :=
    (specDedupFirstAux_nodup _ []).1
  rw [specDedupFirst] at htrips
  rw [← htrips, List.map_map, pair_comp_trip] at hnodup
  have hpw : g.edges.Pairwise (fun a b => pairOf a ≠ pairOf b) :=
    List.pairwise_map.mp hnodup
  refine List.Pairwise.imp ?_ hpw
  intro a b hne hcon
  apply hne
  unfold pairOf
  rw [hcon.1, hcon.2]

/-- Witness for the C8 theorem at the concrete document `d2cex`. -/
theorem c8_witness_check :
    List.Pairwise (fun e1 e2 =>
      ¬ (e1.source_id = e2.source_id ∧ e1.target_id = e2.target_id)) g2w.edges ∧
    g2w.edges.map tripOf =
      specDedupFirst (specEdgeCandidates (DrawioParser.buildCellMap d2cex)) :=
  c8_edge_dedup_first_wins d2cex g2w (by decide)

/-! ## Claim C2 (corrected), amended part -/

/-- Claim C2 amended: extraction retains dangling edges.  Every
edge-classified indexed element with truthy source and target contributes
its (source, target) pair to the extracted edge list, whether or not those
ids are keys of the node mapping. -/
theorem c2_amended_dangling_edges_retained (doc : List Element) (g : FlowGraph)
    (h : DrawioParser.parse doc = Except.ok g) (k : String) (c : Element)
    (hm : (k, c) ∈ DrawioParser.buildCellMap doc) (he : DrawioParser.is_edge c = true)
    (hs : truthy c.source = true) (ht : truthy c.target = true) :
    (c.source.getD "", c.target.getD "") ∈ g.edges.map pairOf := by
  have htrips := DrawioParser.parse_edges_trips doc g h
  have hcand : (k, c.source.getD "", c.target.getD "")
      ∈ specEdgeCandidates (DrawioParser.buildCellMap doc) :=
    List.mem_filterMap.mpr ⟨(k, c), hm, by simp [he, hs, ht]⟩
  cases specDedupFirstAux_mem_pair _ [] _ hcand with
  | inl hmem =>
    rw [specDedupFirst] at htrips
    rw [← htrips, List.map_map, pair_comp_trip] at hmem
    exact hmem
  | inr habs => simp at habs

/-- Witness for the amended C2 theorem at `d2cex`: the dangling
("a", "b") edge is retained although neither endpoint is a node. -/
theorem c2_witness_check :
    ((cellE2.source.getD "", cellE2.target.getD "") ∈ g2w.edges.map pairOf) :=
  c2_amended_dangling_edges_retained d2cex g2w (by decide) "e1" cellE2
    (by decide) (by decide) (by decide) (by decide)

theorem mem_alist_insert {α : Type} (l : List (String × α)) (k : String) (v : α)
    (p : String × α) (h : p ∈ alist_insert l k v) : p ∈ l ∨ p = (k, v) := by
  unfold alist_insert at h
  by_cases hk : alist_hasKey l k
  · rw [if_pos hk] at h
    obtain ⟨q, hq, hq2⟩ := List.mem_map.mp h
    by_cases hqk : q.1 == k
    · rw [if_pos hqk] at hq2
      right
      exact hq2.symm
    · rw [if_neg hqk] at hq2
      left
      rw [← hq2]
      exact hq
  · rw [if_neg hk] at h
    rcases List.mem_append.mp h with h2 | h2
    · left
      exact h2
    · right
      simpa using h2

theorem alist_get_of_mem_nodup {α : Type} {l : List (String × α)}
    (hn : (l.map Prod.fst).Nodup) {k : String} {v : α} (hm : (k, v) ∈ l) :
    alist_get k l = some v := by
  induction l with
  | nil => cases hm
  | cons p rest ih =>
    rw [List.map_cons, List.nodup_cons] at hn
    cases hm with
    | head =>
      unfold alist_get
      simp
    | tail _ htail =>
      unfold alist_get
      by_cases hpk : p.1 == k
      · have hp1 : p.1 = k := by simpa using hpk
        exfalso
        apply hn.1
        rw [hp1]
        exact List.mem_map_of_mem Prod.fst htail
      · rw [if_neg hpk]
        exact ih hn.2 htail

namespace DrawioParser

theorem buildCellMapGo_keys_nodup (doc : List Element) :
    ∀ acc : List (String × Element), (acc.map Prod.fst).Nodup →
      ((buildCellMapGo acc doc).map Prod.fst).Nodup := by
  induction doc with
  | nil =>
    intro acc h
    exact h
  | cons c rest ih =>
    intro acc h
    cases hid : c.id with
    | none =>
      rw [show buildCellMapGo acc (c :: rest) = buildCellMapGo acc rest by
        simp [buildCellMapGo, hid]]
      exact ih acc h
    | some cid =>
      by_cases hemp : cid.isEmpty
      · rw [show buildCellMapGo acc (c :: rest) = buildCellMapGo acc rest by
          simp [buildCellMapGo, hid, hemp]]
        exact ih acc h
      · rw [show buildCellMapGo acc (c :: rest) = buildCellMapGo (alist_insert acc cid c) rest by
          simp [buildCellMapGo, hid, hemp]]
        exact ih _ (alist_insert_keys_nodup _ _ _ h)

theorem buildCellMap_keys_nodup (doc : List Element) :
    ((buildCellMap doc).map Prod.fst).Nodup :=
  buildCellMapGo_keys_nodup doc [] (by simp)

theorem parse_edge_nodes (g : FlowGraph) (cid : String) (c : Element) :
    (parse_edge g cid c).nodes = g.nodes := by
  unfold parse_edge
  split
  · split <;> rfl
  · rfl

theorem parse_edge_edges_mem (g : FlowGraph) (cid : String) (c : Element)
    (e : FlowEdge) (h : e ∈ (parse_edge g cid c).edges) :
    e ∈ g.edges ∨ e = mkEdge cid c := by
  unfold parse_edge at h
  split at h
  · split at h
    · left
      exact h
    · rcases List.mem_append.mp h with h2 | h2
      · left
        exact h2
      · right
        simpa using h2
  · left
    exact h

theorem processCells_nodes_mem (m : List (String × Element)) (l : List (String × Element)) :
    ∀ (g g' : FlowGraph), processCells m l g = Except.ok g' →
      ∀ k n, (k, n) ∈ g'.nodes →
        (k, n) ∈ g.nodes ∨ ∃ c, (k, c) ∈ l ∧ parse_node k c = some n := by
  induction l with
  | nil =>
    intro g g' h k n hm
    unfold processCells at h
    injection h with hgg
    subst hgg
    exact Or.inl hm
  | cons p rest ih =>
    intro g g' h k n hm
    obtain ⟨cid, c⟩ := p
    unfold processCells at h
    by_cases he : is_edge c
    · rw [if_pos he] at h
      cases ih (parse_edge g cid c) g' h k n hm with
      | inl h2 =>
        left
        rwa [parse_edge_nodes] at h2
      | inr h2 =>
        obtain ⟨c2, hc2, hp2⟩ := h2
        exact Or.inr ⟨c2, List.mem_cons_of_mem _ hc2, hp2⟩
    · rw [if_neg he] at h
      by_cases hn : is_node m c
      · rw [if_pos hn] at h
        cases hpn : parse_node cid c with
        | none =>
          rw [hpn] at h
          cases h
        | some n1 =>
          rw [hpn] at h
          cases ih _ g' h k n hm with
          | inl h2 =>
            cases mem_alist_insert g.nodes cid n1 (k, n) h2 with
            | inl h3 => exact Or.inl h3
            | inr h3 =>
              right
              have hk : k = cid := congrArg Prod.fst h3
              have hn2 : n = n1 := congrArg Prod.snd h3
              subst hk
              subst hn2
              exact ⟨c, List.mem_cons_self _ _, hpn⟩
          | inr h2 =>
            obtain ⟨c2, hc2, hp2⟩ := h2
            exact Or.inr ⟨c2, List.mem_cons_of_mem _ hc2, hp2⟩
      · rw [if_neg hn] at h
        cases ih g g' h k n hm with
        | inl h2 => exact Or.inl h2
        | inr h2 =>
          obtain ⟨c2, hc2, hp2⟩ := h2
          exact Or.inr ⟨c2, List.mem_cons_of_mem _ hc2, hp2⟩

theorem processCells_edges_mem (m : List (String × Element)) (l : List (String × Element)) :
    ∀ (g g' : FlowGraph), processCells m l g = Except.ok g' →
      ∀ e ∈ g'.edges, e ∈ g.edges ∨ ∃ k c, (k, c) ∈ l ∧ e = mkEdge k c := by
  induction l with
  | nil =>
    intro g g' h e hm
    unfold processCells at h
    injection h with hgg
    subst hgg
    exact Or.inl hm
  | cons p rest ih =>
    intro g g' h e hm
    obtain ⟨cid, c⟩ := p
    unfold processCells at h
    by_cases he : is_edge c
    · rw [if_pos he] at h
      cases ih (parse_edge g cid c) g' h e hm with
      | inl h2 =>
        cases parse_edge_edges_mem g cid c e h2 with
        | inl h3 => exact Or.inl h3
        | inr h3 => exact Or.inr ⟨cid, c, List.mem_cons_self _ _, h3⟩
      | inr h2 =>
        obtain ⟨k2, c2, hc2, hp2⟩ := h2
        exact Or.inr ⟨k2, c2, List.mem_cons_of_mem _ hc2, hp2⟩
    · rw [if_neg he] at h
      by_cases hn : is_node m c
      · rw [if_pos hn] at h
        cases hpn : parse_node cid c with
        | none =>
          rw [hpn] at h
          cases h
        | some n1 =>
          rw [hpn] at h
          cases ih _ g' h e hm with
          | inl h2 => exact Or.inl h2
          | inr h2 =>
            obtain ⟨k2, c2, hc2, hp2⟩ := h2
            exact Or.inr ⟨k2, c2, List.mem_cons_of_mem _ hc2, hp2⟩
      · rw [if_neg hn] at h
        cases ih g g' h e hm with
        | inl h2 => exact Or.inl h2
        | inr h2 =>
          obtain ⟨k2, c2, hc2, hp2⟩ := h2
          exact Or.inr ⟨k2, c2, List.mem_cons_of_mem _ hc2, hp2⟩

end DrawioParser

namespace DrawioParser

theorem extract_edge_label_id (m : List (String × Element)) (e : FlowEdge) :
    (extract_edge_label m e).id = e.id :=
  congrArg (fun t => t.1) (extract_edge_label_trip m e)

theorem parse_node_role (cid : String) (c : Element) (n : FlowNode)
    (h : parse_node cid c = some n) :
    n.node_type = styleClass (c.style.getD "") := by
  unfold parse_node at h
  cases hg : c.geometry with
  | none => simp [hg] at h
  | some geo =>
    simp only [hg] at h
    cases hw : (match geo.width with | none => some (120 : Rat) | some s => parseNum s) with
    | none => simp [hw] at h
    | some w =>
      simp only [hw] at h
      cases hh : (match geo.height with | none => some (60 : Rat) | some s => parseNum s) with
      | none => simp [hh] at h
      | some ht =>
        simp only [hh, Option.some.injEq] at h
        rw [← h]

theorem inDeg_congr (g1 g2 : FlowGraph)
    (hk : g1.nodes.map Prod.fst = g2.nodes.map Prod.fst) (he : g1.edges = g2.edges)
    (k : String) : inDeg g1 k = inDeg g2 k := by
  unfold inDeg
  rw [he]
  apply congrArg List.length
  apply List.filter_congr
  intro e _
  rw [alist_hasKey_keys, alist_hasKey_keys, hk]

theorem outDeg_congr (g1 g2 : FlowGraph)
    (hk : g1.nodes.map Prod.fst = g2.nodes.map Prod.fst) (he : g1.edges = g2.edges)
    (k : String) : outDeg g1 k = outDeg g2 k := by
  unfold outDeg
  rw [he]
  apply congrArg List.length
  apply List.filter_congr
  intro e _
  rw [alist_hasKey_keys, alist_hasKey_keys, hk]

theorem infer_nodes_mem (g : FlowGraph) (k : String) (n : FlowNode)
    (h : (k, n) ∈ (infer_node_types g).nodes) :
    ∃ n0, (k, n0) ∈ g.nodes ∧
      n = { n0 with node_type :=
        (if outDeg g k = 0 ∧ 0 < inDeg g k then NodeType.END
         else if inDeg g k = 0 ∧ 0 < outDeg g k then NodeType.START
         else n0.node_type) } := by
  unfold infer_node_types at h
  obtain ⟨p, hp, hf⟩ := List.mem_map.mp h
  have hk : p.1 = k := congrArg Prod.fst hf
  have hn : ({ p.2 with node_type :=
      (if outDeg g p.1 = 0 ∧ 0 < inDeg g p.1 then NodeType.END
       else if inDeg g p.1 = 0 ∧ 0 < outDeg g p.1 then NodeType.START
       else p.2.node_type) } : FlowNode) = n := congrArg Prod.snd hf
  refine ⟨p.2, ?_, ?_⟩
  · rw [← hk]
    exact hp
  · rw [← hn, hk]

end DrawioParser

/-! ## Claim C3 (confirmed): connectivity-forced roles -/

/-- Claim C3: in every extracted graph, a node with in-degree 0 and
out-degree > 0 has role START, a node with out-degree 0 and in-degree > 0
has role END — regardless of its style-based initial classification —
and a node with both degrees 0 keeps the style-based role of its
document element. -/
theorem c3_roles_forced_by_connectivity (doc : List Element) (g : FlowGraph)
    (h : DrawioParser.parse doc = Except.ok g) (k : String) (n : FlowNode)
    (hm : (k, n) ∈ g.nodes) :
    (DrawioParser.inDeg g k = 0 → 0 < DrawioParser.outDeg g k →
      n.node_type = NodeType.START) ∧
    (DrawioParser.outDeg g k = 0 → 0 < DrawioParser.inDeg g k →
      n.node_type = NodeType.END) ∧
    (DrawioParser.inDeg g k = 0 → DrawioParser.outDeg g k = 0 →
      ∀ c, alist_get k (DrawioParser.buildCellMap doc) = some c →
        n.node_type = DrawioParser.styleClass (c.style.getD "")) := by
  obtain ⟨g1, hp, hg⟩ := DrawioParser.parse_ok_elim doc g h
  subst hg
  set G2 : FlowGraph :=
    { g1 with edges := g1.edges.map (DrawioParser.extract_edge_label
        (DrawioParser.buildCellMap doc)) } with hG2
  have hinEq : DrawioParser.inDeg (DrawioParser.infer_node_types G2) k =
      DrawioParser.inDeg G2 k :=
    DrawioParser.inDeg_congr _ _ (DrawioParser.infer_node_types_keys G2) rfl k
  have houtEq : DrawioParser.outDeg (DrawioParser.infer_node_types G2) k =
      DrawioParser.outDeg G2 k :=
    DrawioParser.outDeg_congr _ _ (DrawioParser.infer_node_types_keys G2) rfl k
  obtain ⟨n0, hn0, hneq⟩ := DrawioParser.infer_nodes_mem G2 k n hm
  refine ⟨?_, ?_, ?_⟩
  · intro h1 h2
    rw [hinEq] at h1
    rw [houtEq] at h2
    rw [hneq]
    show (if DrawioParser.outDeg G2 k = 0 ∧ 0 < DrawioParser.inDeg G2 k then NodeType.END
      else if DrawioParser.inDeg G2 k = 0 ∧ 0 < DrawioParser.outDeg G2 k then NodeType.START
      else n0.node_type) = NodeType.START
    rw [if_neg (by rw [h1]; exact fun hcon => absurd hcon.2 (by omega)), if_pos ⟨h1, h2⟩]
  · intro h1 h2
    rw [houtEq] at h1
    rw [hinEq] at h2
    rw [hneq]
    show (if DrawioParser.outDeg G2 k = 0 ∧ 0 < DrawioParser.inDeg G2 k then NodeType.END
      else if DrawioParser.inDeg G2 k = 0 ∧ 0 < DrawioParser.outDeg G2 k then NodeType.START
      else n0.node_type) = NodeType.END
    rw [if_pos ⟨h1, h2⟩]
  · intro h1 h2 c hc
    rw [hinEq] at h1
    rw [houtEq] at h2
    rw [hneq]
    show (if DrawioParser.outDeg G2 k = 0 ∧ 0 < DrawioParser.inDeg G2 k then NodeType.END
      else if DrawioParser.inDeg G2 k = 0 ∧ 0 < DrawioParser.outDeg G2 k then NodeType.START
      else n0.node_type) = DrawioParser.styleClass (c.style.getD "")
    rw [if_neg (by rw [h1]; exact fun hcon => absurd hcon.2 (by omega)),
      if_neg (by rw [h2]; exact fun hcon => absurd hcon.2 (by omega))]
    have hmem2 : (k, n0) ∈ g1.nodes := hn0
    cases DrawioParser.processCells_nodes_mem (DrawioParser.buildCellMap doc)
        (DrawioParser.buildCellMap doc) _ g1 hp k n0 hmem2 with
    | inl habs => cases habs
    | inr hobt =>
      obtain ⟨c2, hkc2, hpn2⟩ := hobt
      have hget : alist_get k (DrawioParser.buildCellMap doc) = some c2 :=
        alist_get_of_mem_nodup (DrawioParser.buildCellMap_keys_nodup doc) hkc2
      rw [hget] at hc
      injection hc with hc2
      rw [← hc2]
      exact DrawioParser.parse_node_role k c2 n0 hpn2

/-- Witness for the C3 theorem at `d3w`: node "n1" is forced to START. -/
theorem c3_witness_check :
    (DrawioParser.inDeg g3w "n1" = 0 → 0 < DrawioParser.outDeg g3w "n1" →
      ({ id := "n1", node_type := NodeType.START, label := "", width := 120,
         height := 60 } : FlowNode).node_type = NodeType.START) ∧
    (DrawioParser.outDeg g3w "n1" = 0 → 0 < DrawioParser.inDeg g3w "n1" →
      ({ id := "n1", node_type := NodeType.START, label := "", width := 120,
         height := 60 } : FlowNode).node_type = NodeType.END) ∧
    (DrawioParser.inDeg g3w "n1" = 0 → DrawioParser.outDeg g3w "n1" = 0 →
      ∀ c, alist_get "n1" (DrawioParser.buildCellMap d3w) = some c →
        ({ id := "n1", node_type := NodeType.START, label := "", width := 120,
           height := 60 } : FlowNode).node_type =
          DrawioParser.styleClass (c.style.getD "")) :=
  c3_roles_forced_by_connectivity d3w g3w (by decide) "n1"
    { id := "n1", node_type := NodeType.START, label := "", width := 120, height := 60 }
    (by decide)

/-! ## Claim C5 (corrected), amended part -/

/-- Claim C5 amended: the final label of every extracted edge is
determined thus — if the edge's own indexed element has a truthy value,
the y/yes → "yes", n/no → "no" mapping is applied to it (an unmatched
non-empty value leaves the label empty and the child scan is skipped);
only when the own value is empty or absent is the first child
edge-label decoration consulted under the same mapping; an edge matched
by neither keeps the empty label. -/
theorem c5_amended_label_extraction (doc : List Element) (g : FlowGraph)
    (h : DrawioParser.parse doc = Except.ok g) (e : FlowEdge) (he : e ∈ g.edges) :
    ∃ c, alist_get e.id (DrawioParser.buildCellMap doc) = some c ∧
      e.label =
        (if truthy c.value then DrawioParser.applyLabel "" (toLowerStr (c.value.getD ""))
         else
           match DrawioParser.child_label_scan (DrawioParser.buildCellMap doc) e.id with
           | some ch => DrawioParser.applyLabel "" (toLowerStr (ch.value.getD ""))
           | none => "") := by
  obtain ⟨g1, hp, hg⟩ := DrawioParser.parse_ok_elim doc g h
  have hge : g.edges = g1.edges.map
      (DrawioParser.extract_edge_label (DrawioParser.buildCellMap doc)) := by
    rw [hg]
    rfl
  rw [hge] at he
  obtain ⟨e0, he0, hex⟩ := List.mem_map.mp he
  cases DrawioParser.processCells_edges_mem (DrawioParser.buildCellMap doc)
      (DrawioParser.buildCellMap doc) _ g1 hp e0 he0 with
  | inl habs => cases habs
  | inr hobt =>
    obtain ⟨k, c, hkc, he0eq⟩ := hobt
    have hget : alist_get k (DrawioParser.buildCellMap doc) = some c :=
      alist_get_of_mem_nodup (DrawioParser.buildCellMap_keys_nodup doc) hkc
    subst he0eq
    subst hex
    have hid : (DrawioParser.extract_edge_label (DrawioParser.buildCellMap doc)
        (DrawioParser.mkEdge k c)).id = k := by
      rw [DrawioParser.extract_edge_label_id]
      rfl
    rw [hid]
    refine ⟨c, hget, ?_⟩
    simp only [DrawioParser.extract_edge_label, DrawioParser.mkEdge, hget]
    by_cases hv : truthy c.value
    · rw [if_pos hv, if_pos hv]
    · rw [if_neg hv, if_neg hv]
      cases hcs : DrawioParser.child_label_scan (DrawioParser.buildCellMap doc) k with
      | some ch => rfl
      | none => rfl

/-- Witness for the amended C5 theorem at `d5cex`: the "maybe"-valued edge
keeps the empty label computed from its own (unmatched) value. -/
theorem c5_witness_check :
    ∃ c, alist_get "e1" (DrawioParser.buildCellMap d5cex) = some c ∧
      ("" : String) =
        (if truthy c.value then DrawioParser.applyLabel "" (toLowerStr (c.value.getD ""))
         else
           match DrawioParser.child_label_scan (DrawioParser.buildCellMap d5cex) "e1" with
           | some ch => DrawioParser.applyLabel "" (toLowerStr (ch.value.getD ""))
           | none => "") :=
  c5_amended_label_extraction d5cex
    { nodes := [], edges := [{ id := "e1", source_id := "a", target_id := "b" }] }
    (by decide) { id := "e1", source_id := "a", target_id := "b" } (by decide)

/-! ## Helper lemmas: the numeral writer re-parses -/

theorem isDigitChar_natDigitChar (d : Nat) : isDigitChar (natDigitChar d) = true := by
  match d with
  | 0 => decide
  | 1 => decide
  | 2 => decide
  | 3 => decide
  | 4 => decide
  | 5 => decide
  | 6 => decide
  | 7 => decide
  | 8 => decide
  | 9 => decide
  | _ + 10 => rfl

theorem natToCharsAux_digits (fuel : Nat) :
    ∀ (n : Nat) (acc : List Char), (∀ c ∈ acc, isDigitChar c = true) →
      ∀ c ∈ natToCharsAux fuel n acc, isDigitChar c = true := by
  induction fuel with
  | zero =>
    intro n acc hacc c hc
    exact hacc c hc
  | succ fuel ih =>
    intro n acc hacc c hc
    unfold natToCharsAux at hc
    split at hc
    · cases hc with
      | head => exact isDigitChar_natDigitChar n
      | tail _ ht => exact hacc c ht
    · refine ih (n / 10) _ ?_ c hc
      intro c2 hc2
      cases hc2 with
      | head => exact isDigitChar_natDigitChar _
      | tail _ ht => exact hacc c2 ht

theorem natToCharsAux_ne_nil (fuel : Nat) :
    ∀ (n : Nat) (acc : List Char), (acc = [] → 0 < fuel) →
      natToCharsAux fuel n acc ≠ [] := by
  induction fuel with
  | zero =>
    intro n acc hacc hcon
    unfold natToCharsAux at hcon
    exact absurd (hacc hcon) (by omega)
  | succ fuel ih =>
    intro n acc hacc
    unfold natToCharsAux
    split
    · simp
    · exact ih (n / 10) _ (fun hcon => by cases hcon)

theorem natToChars_digits (n : Nat) : ∀ c ∈ natToChars n, isDigitChar c = true :=
  natToCharsAux_digits (n + 1) n [] (by intro c hc; cases hc)

theorem natToChars_ne_nil (n : Nat) : natToChars n ≠ [] :=
  natToCharsAux_ne_nil (n + 1) n [] (fun _ => by omega)

theorem takeWhile_all_append (p : Char → Bool) (A : List Char) (b : Char) (B : List Char)
    (hA : ∀ c ∈ A, p c = true) (hb : p b = false) :
    (A ++ b :: B).takeWhile p = A ∧ (A ++ b :: B).dropWhile p = b :: B := by
  induction A with
  | nil => simp [List.takeWhile_cons, List.dropWhile_cons, hb]
  | cons a A ih =>
    have ha : p a = true := hA a (List.mem_cons_self a A)
    have ihh := ih (fun c hc => hA c (List.mem_cons_of_mem a hc))
    simp [List.takeWhile_cons, List.dropWhile_cons, ha, ihh.1, ihh.2]

theorem parseNumTail_digits_dot_digit (sign : Int) (D : List Char) (d : Char)
    (hD : ∀ c ∈ D, isDigitChar c = true) (hd : isDigitChar d = true) :
    (parseNumTail sign (D ++ ['.', d])).isSome = true := by
  have htw := takeWhile_all_append isDigitChar D '.' [d] hD (by decide)
  simp only [parseNumTail]
  rw [htw.1, htw.2]
  simp [List.takeWhile_cons, List.dropWhile_cons, hd]

theorem parseNum_numToStr_isSome (q : Rat) : (parseNum (numToStr q)).isSome = true := by
  show (parseNumChars ((if q.num < 0 then ['-'] else []) ++
    natToChars (q.num.natAbs / q.den) ++
    ['.', natDigitChar (q.num.natAbs % q.den * 10 / q.den)])).isSome = true
  by_cases hneg : q.num < 0
  · rw [if_pos hneg, List.append_assoc, List.singleton_append]
    show (parseNumTail (-1) (natToChars (q.num.natAbs / q.den) ++
      ['.', natDigitChar (q.num.natAbs % q.den * 10 / q.den)])).isSome = true
    exact parseNumTail_digits_dot_digit _ _ _ (natToChars_digits _)
      (isDigitChar_natDigitChar _)
  · rw [if_neg hneg, List.nil_append]
    obtain ⟨c0, D', hsplit⟩ :=
      List.exists_cons_of_ne_nil (natToChars_ne_nil (q.num.natAbs / q.den))
    have hdigits : ∀ c ∈ c0 :: D', isDigitChar c = true := by
      rw [← hsplit]
      exact natToChars_digits _
    rw [hsplit, List.cons_append]
    have hc0 : isDigitChar c0 = true := hdigits c0 (List.mem_cons_self _ _)
    unfold parseNumChars
    split
    · rename_i heq
      injection heq with h1 h2
      rw [h1] at hc0
      exact absurd hc0 (by decide)
    · rename_i heq
      injection heq with h1 h2
      rw [h1] at hc0
      exact absurd hc0 (by decide)
    · have hall : ∀ c ∈ D', isDigitChar c = true :=
        fun c hc => hdigits c (List.mem_cons_of_mem _ hc)
      exact parseNumTail_digits_dot_digit 1 (c0 :: D') _ hdigits
        (isDigitChar_natDigitChar _)

/-! ## Helper lemmas: extraction of a generated document -/

namespace DrawioParser

theorem buildCellMapGo_fresh (doc : List Element) :
    ∀ acc : List (String × Element),
      (∀ c ∈ doc, c.id ≠ none ∧ c.id ≠ some "") →
      (∀ c ∈ doc, ∀ p ∈ acc, some p.1 ≠ c.id) →
      (doc.map (fun c => c.id)).Nodup →
      buildCellMapGo acc doc = acc ++ doc.map (fun c => (c.id.getD "", c)) := by
  induction doc with
  | nil =>
    intro acc _ _ _
    simp [buildCellMapGo]
  | cons c rest ih =>
    intro acc h1 h2 h3
    obtain ⟨hnone, hempty⟩ := h1 c (List.mem_cons_self c rest)
    cases hid : c.id with
    | none => exact absurd hid hnone
    | some cid =>
      have hcid : ¬ cid.isEmpty := by
        intro hcon
        exact hempty (by rw [hid, (String.isEmpty_iff cid).mp hcon])
      rw [show buildCellMapGo acc (c :: rest) = buildCellMapGo (alist_insert acc cid c) rest by
        simp [buildCellMapGo, hid, hcid]]
      have hfresh : alist_hasKey acc cid = false := by
        rw [alist_hasKey_keys]
        simp only [List.any_eq_false]
        intro s hs
        obtain ⟨p, hp, hps⟩ := List.mem_map.mp hs
        simp only [beq_iff_eq]
        intro hcon
        exact h2 c (List.mem_cons_self c rest) p hp (by rw [hps, hcon, hid])
      have hins : alist_insert acc cid c = acc ++ [(cid, c)] := by
        unfold alist_insert
        rw [hfresh]
        simp
      rw [hins]
      rw [List.map_cons, List.nodup_cons] at h3
      rw [ih (acc ++ [(cid, c)]) (fun c2 hc2 => h1 c2 (List.mem_cons_of_mem c hc2))
        ?_ h3.2]
      · rw [List.map_cons, List.append_assoc, List.singleton_append, hid]
        rfl
      · intro c2 hc2 p hp
        rcases List.mem_append.mp hp with hpa | hpb
        · exact h2 c2 (List.mem_cons_of_mem c hc2) p hpa
        · have hpcid : p = (cid, c) := by simpa using hpb
          rw [hpcid]
          intro hcon
          apply h3.1
          rw [hid, hcon]
          exact List.mem_map_of_mem (fun c => c.id) hc2

theorem processCells_append (m : List (String × Element))
    (l1 l2 : List (String × Element)) :
    ∀ g : FlowGraph, processCells m (l1 ++ l2) g =
      match processCells m l1 g with
      | Except.ok g1 => processCells m l2 g1
      | Except.error s => Except.error s := by
  induction l1 with
  | nil =>
    intro g
    rfl
  | cons p rest ih =>
    intro g
    obtain ⟨cid, c⟩ := p
    rw [List.cons_append]
    by_cases he : is_edge c
    · rw [show processCells m ((cid, c) :: (rest ++ l2)) g
          = processCells m (rest ++ l2) (parse_edge g cid c) by
        conv_lhs => unfold processCells
        rw [if_pos he]]
      rw [show processCells m ((cid, c) :: rest) g
          = processCells m rest (parse_edge g cid c) by
        conv_lhs => unfold processCells
        rw [if_pos he]]
      exact ih _
    · by_cases hn : is_node m c
      · cases hpn : parse_node cid c with
        | none =>
          rw [show processCells m ((cid, c) :: (rest ++ l2)) g
              = Except.error "ValueError: could not convert string to float" by
            conv_lhs => unfold processCells
            rw [if_neg he, if_pos hn, hpn]]
          rw [show processCells m ((cid, c) :: rest) g
              = Except.error "ValueError: could not convert string to float" by
            conv_lhs => unfold processCells
            rw [if_neg he, if_pos hn, hpn]]
        | some n =>
          rw [show processCells m ((cid, c) :: (rest ++ l2)) g
              = processCells m (rest ++ l2) { g with nodes := alist_insert g.nodes cid n } by
            conv_lhs => unfold processCells
            rw [if_neg he, if_pos hn, hpn]]
          rw [show processCells m ((cid, c) :: rest) g
              = processCells m rest { g with nodes := alist_insert g.nodes cid n } by
            conv_lhs => unfold processCells
            rw [if_neg he, if_pos hn, hpn]]
          exact ih _
      · rw [show processCells m ((cid, c) :: (rest ++ l2)) g
            = processCells m (rest ++ l2) g by
          conv_lhs => unfold processCells
          rw [if_neg he, if_neg hn]]
        rw [show processCells m ((cid, c) :: rest) g
            = processCells m rest g by
          conv_lhs => unfold processCells
          rw [if_neg he, if_neg hn]]
        exact ih _

theorem processCells_cell01 (m : List (String × Element)) (g : FlowGraph) :
    processCells m [("0", DrawioGenerator.cell0), ("1", DrawioGenerator.cell1)] g =
      Except.ok g := by
  have he0 : is_edge DrawioGenerator.cell0 = false := by decide
  have he1 : is_edge DrawioGenerator.cell1 = false := by decide
  have hn0 : is_node m DrawioGenerator.cell0 = false := by
    unfold is_node
    rw [if_pos]
    simp [DrawioGenerator.cell0]
  have hn1 : is_node m DrawioGenerator.cell1 = false := by
    unfold is_node
    rw [if_pos]
    simp [DrawioGenerator.cell1]
  unfold processCells
  rw [if_neg (by rw [he0]; exact Bool.false_ne_true), if_neg (by rw [hn0]; exact Bool.false_ne_true)]
  unfold processCells
  rw [if_neg (by rw [he1]; exact Bool.false_ne_true), if_neg (by rw [hn1]; exact Bool.false_ne_true)]
  rfl

theorem node_style_no_edgelabel (t : NodeType) :
    strContains (toLowerStr (DrawioGenerator.node_style t)) "edgelabel" = false := by
  cases t <;> decide

theorem processCells_node_phase (m : List (String × Element)) :
    ∀ (ps : List (String × FlowNode)) (acc : FlowGraph),
      (∀ p ∈ ps, p.2.id = p.1 ∧ p.1 ≠ "0" ∧ p.1 ≠ "1" ∧
        alist_hasKey acc.nodes p.1 = false) →
      (ps.map Prod.fst).Nodup →
      ∃ ns2, processCells m (ps.map (fun p => (p.1, DrawioGenerator.write_node p.2))) acc
          = Except.ok { acc with nodes := acc.nodes ++ ns2 } ∧
        List.Forall₂ (fun p q => q.1 = p.1 ∧
          q.2.node_type =
            DrawioParser.styleClass (DrawioGenerator.node_style p.2.node_type)) ps ns2 := by
  intro ps
  induction ps with
  | nil =>
    intro acc _ _
    refine ⟨[], ?_, List.Forall₂.nil⟩
    simp [processCells]
  | cons p ps ih =>
    intro acc h1 h2
    obtain ⟨k, n⟩ := p
    obtain ⟨hid0, h00, h10, hfresh0⟩ := h1 (k, n) (List.mem_cons_self _ _)
    have hid : n.id = k := hid0
    have h0 : k ≠ "0" := h00
    have h1' : k ≠ "1" := h10
    have hfresh : alist_hasKey acc.nodes k = false := hfresh0
    have hedge : is_edge (DrawioGenerator.write_node n) = false := rfl
    have hnode : is_node m (DrawioGenerator.write_node n) = true := by
      simp only [is_node, DrawioGenerator.write_node]
      simp [truthy, is_edge, hid, h0, h1', node_style_no_edgelabel n.node_type]
    obtain ⟨nn, hpn, hrole⟩ : ∃ nn, parse_node k (DrawioGenerator.write_node n) = some nn ∧
        nn.node_type = DrawioParser.styleClass (DrawioGenerator.node_style n.node_type) := by
      obtain ⟨w, hw⟩ := Option.isSome_iff_exists.mp (parseNum_numToStr_isSome n.width)
      obtain ⟨hv, hh⟩ := Option.isSome_iff_exists.mp (parseNum_numToStr_isSome n.height)
      refine ⟨⟨k, DrawioParser.styleClass (DrawioGenerator.node_style n.node_type),
        n.label, w, hv, 0, 0⟩, ?_, rfl⟩
      simp [parse_node, DrawioGenerator.write_node, hw, hh]
    have hstep : processCells m
        (((k, n) :: ps).map (fun p => (p.1, DrawioGenerator.write_node p.2))) acc
        = processCells m (ps.map (fun p => (p.1, DrawioGenerator.write_node p.2)))
          { acc with nodes := alist_insert acc.nodes k nn } := by
      rw [List.map_cons]
      conv_lhs => unfold processCells
      rw [if_neg (by rw [hedge]; exact Bool.false_ne_true), if_pos hnode, hpn]
    have hins : alist_insert acc.nodes k nn = acc.nodes ++ [(k, nn)] := by
      unfold alist_insert
      rw [hfresh]
      simp
    rw [List.map_cons, List.nodup_cons] at h2
    have hcond : ∀ q ∈ ps, q.2.id = q.1 ∧ q.1 ≠ "0" ∧ q.1 ≠ "1" ∧
        alist_hasKey ({ acc with nodes := acc.nodes ++ [(k, nn)] } : FlowGraph).nodes q.1
          = false := by
      intro q hq
      obtain ⟨hqid, hq0, hq1, hqfresh⟩ := h1 q (List.mem_cons_of_mem _ hq)
      refine ⟨hqid, hq0, hq1, ?_⟩
      show alist_hasKey (acc.nodes ++ [(k, nn)]) q.1 = false
      rw [alist_hasKey_keys, List.map_append]
      simp only [List.any_append, Bool.or_eq_false_iff]
      constructor
      · rw [← alist_hasKey_keys]
        exact hqfresh
      · have hkq : k ≠ q.1 := by
          intro hcon
          apply h2.1
          show k ∈ List.map Prod.fst ps
          rw [hcon]
          exact List.mem_map_of_mem Prod.fst hq
        simp only [List.map_cons, List.map_nil, List.any_cons, List.any_nil,
          Bool.or_false]
        exact beq_eq_false_iff_ne.mpr hkq
    obtain ⟨ns2, hrec, hfa⟩ := ih { acc with nodes := acc.nodes ++ [(k, nn)] } hcond h2.2
    refine ⟨(k, nn) :: ns2, ?_, ?_⟩
    · rw [hstep, hins, hrec, List.append_assoc]
      rfl
    · exact List.Forall₂.cons ⟨rfl, hrole⟩ hfa

theorem processCells_edge_phase (m : List (String × Element)) :
    ∀ (es : List FlowEdge) (acc : FlowGraph),
      (∀ e ∈ es, e.source_id ≠ "" ∧ e.target_id ≠ "") →
      (es.map pairOf).Nodup →
      (∀ e ∈ es, pairOf e ∉ acc.edges.map pairOf) →
      processCells m (es.map (fun e => (e.id, DrawioGenerator.write_edge e))) acc
        = Except.ok { acc with edges := (acc.edges ++
            es.map (fun e => mkEdge e.id (DrawioGenerator.write_edge e))) } := by
  intro es
  induction es with
  | nil =>
    intro acc _ _ _
    simp [processCells]
  | cons e es ih =>
    intro acc hends hnodup hfresh
    have hsrc : e.source_id ≠ "" := (hends e (List.mem_cons_self _ _)).1
    have htgt : e.target_id ≠ "" := (hends e (List.mem_cons_self _ _)).2
    have hedge : is_edge (DrawioGenerator.write_edge e) = true := rfl
    have hs1 : e.source_id.isEmpty = false := by
      rw [← Bool.not_eq_true]
      intro hcon
      exact hsrc ((String.isEmpty_iff _).mp hcon)
    have ht1 : e.target_id.isEmpty = false := by
      rw [← Bool.not_eq_true]
      intro hcon
      exact htgt ((String.isEmpty_iff _).mp hcon)
    have htru : (truthy (DrawioGenerator.write_edge e).source &&
        truthy (DrawioGenerator.write_edge e).target) = true := by
      simp [DrawioGenerator.write_edge, truthy, hs1, ht1]
    have hdup : acc.edges.any (fun e2 =>
        e2.source_id == (DrawioGenerator.write_edge e).source.getD "" &&
        e2.target_id == (DrawioGenerator.write_edge e).target.getD "") = false := by
      show acc.edges.any (fun e2 =>
        e2.source_id == e.source_id && e2.target_id == e.target_id) = false
      rw [← any_pair_beq]
      simp only [List.any_eq_false]
      intro q hq hcon
      have hq2 : q = (e.source_id, e.target_id) := eq_of_beq hcon
      apply hfresh e (List.mem_cons_self _ _)
      show pairOf e ∈ acc.edges.map pairOf
      rw [show pairOf e = (e.source_id, e.target_id) from rfl, ← hq2]
      exact hq
    have hpe : parse_edge acc e.id (DrawioGenerator.write_edge e)
        = { acc with edges := acc.edges ++ [mkEdge e.id (DrawioGenerator.write_edge e)] } := by
      unfold parse_edge
      rw [if_pos htru, if_neg (by rw [hdup]; exact Bool.false_ne_true)]
    have hstep : processCells m
        ((e :: es).map (fun e => (e.id, DrawioGenerator.write_edge e))) acc
        = processCells m (es.map (fun e => (e.id, DrawioGenerator.write_edge e)))
          { acc with edges := acc.edges ++ [mkEdge e.id (DrawioGenerator.write_edge e)] } := by
      rw [List.map_cons]
      conv_lhs => unfold processCells
      rw [if_pos hedge, hpe]
    rw [List.map_cons, List.nodup_cons] at hnodup
    have hcond : ∀ e2 ∈ es, pairOf e2 ∉
        ({ acc with edges := (acc.edges ++
          [mkEdge e.id (DrawioGenerator.write_edge e)]) } : FlowGraph).edges.map pairOf := by
      intro e2 he2
      show pairOf e2 ∉ (acc.edges ++ [mkEdge e.id (DrawioGenerator.write_edge e)]).map pairOf
      rw [List.map_append]
      intro hcon
      rcases List.mem_append.mp hcon with hca | hcb
      · exact hfresh e2 (List.mem_cons_of_mem _ he2) hca
      · apply hnodup.1
        have hpq : pairOf e2 = pairOf (mkEdge e.id (DrawioGenerator.write_edge e)) := by
          simpa using hcb
        rw [show pairOf (mkEdge e.id (DrawioGenerator.write_edge e)) = pairOf e from rfl] at hpq
        rw [← hpq]
        exact List.mem_map_of_mem pairOf he2
    have hrec := ih { acc with edges := acc.edges ++
        [mkEdge e.id (DrawioGenerator.write_edge e)] }
      (fun e2 he2 => hends e2 (List.mem_cons_of_mem _ he2)) hnodup.2 hcond
    rw [hstep, hrec, List.map_cons, List.append_assoc]
    rfl

theorem pairOf_extract (m : List (String × Element)) (e : FlowEdge) :
    pairOf (extract_edge_label m e) = pairOf e :=
  congrArg (fun t => t.2) (extract_edge_label_trip m e)

theorem inDeg_congr_pairs (g1 g2 : FlowGraph)
    (hk : g1.nodes.map Prod.fst = g2.nodes.map Prod.fst)
    (he : g1.edges.map pairOf = g2.edges.map pairOf) (k : String) :
    inDeg g1 k = inDeg g2 k := by
  have h1 : ∀ G : FlowGraph,
      inDeg G k = ((G.edges.map pairOf).filter
        (fun q => alist_hasKey G.nodes q.2 && q.2 == k)).length := by
    intro G
    unfold inDeg
    rw [List.filter_map, List.length_map]
    apply congrArg List.length
    apply List.filter_congr
    intro e _
    rfl
  rw [h1 g1, h1 g2, he]
  apply congrArg List.length
  apply List.filter_congr
  intro q _
  rw [alist_hasKey_keys, alist_hasKey_keys, hk]

theorem outDeg_congr_pairs (g1 g2 : FlowGraph)
    (hk : g1.nodes.map Prod.fst = g2.nodes.map Prod.fst)
    (he : g1.edges.map pairOf = g2.edges.map pairOf) (k : String) :
    outDeg g1 k = outDeg g2 k := by
  have h1 : ∀ G : FlowGraph,
      outDeg G k = ((G.edges.map pairOf).filter
        (fun q => alist_hasKey G.nodes q.1 && q.1 == k)).length := by
    intro G
    unfold outDeg
    rw [List.filter_map, List.length_map]
    apply congrArg List.length
    apply List.filter_congr
    intro e _
    rfl
  rw [h1 g1, h1 g2, he]
  apply congrArg List.length
  apply List.filter_congr
  intro q _
  rw [alist_hasKey_keys, alist_hasKey_keys, hk]

end DrawioParser

theorem forall2_keys {P : (String × FlowNode) → (String × FlowNode) → Prop}
    (ps qs : List (String × FlowNode))
    (h : List.Forall₂ (fun p q => q.1 = p.1 ∧ P p q) ps qs) :
    qs.map Prod.fst = ps.map Prod.fst := by
  induction h with
  | nil => rfl
  | cons hpq _ ih => simp [List.map_cons, ih, hpq.1]

theorem forall2_lookup {P : (String × FlowNode) → (String × FlowNode) → Prop}
    (ps qs : List (String × FlowNode))
    (h : List.Forall₂ (fun p q => q.1 = p.1 ∧ P p q) ps qs)
    (k : String) (n nq : FlowNode) :
    (ps.map Prod.fst).Nodup → (k, n) ∈ ps → (k, nq) ∈ qs →
    P (k, n) (k, nq) := by
  induction h with
  | nil =>
    intro _ hp _
    cases hp
  | cons hpq htail ih =>
    rename_i a b l1 l2
    intro hnd hp hq
    rw [List.map_cons, List.nodup_cons] at hnd
    cases hp with
    | head =>
      cases hq with
      | head => exact hpq.2
      | tail _ hq2 =>
        exfalso
        apply hnd.1
        have hkeys := forall2_keys l1 l2 htail
        have hmem : (k : String) ∈ l2.map Prod.fst := List.mem_map_of_mem Prod.fst hq2
        rw [hkeys] at hmem
        exact hmem
    | tail _ hp2 =>
      cases hq with
      | head =>
        exfalso
        apply hnd.1
        have h1 : (k : String) = a.1 := hpq.1
        show a.1 ∈ l1.map Prod.fst
        rw [← h1]
        exact List.mem_map_of_mem Prod.fst hp2
      | tail _ hq2 => exact ih hnd.2 hp2 hq2


/-! ## Claim C4 (corrected), amended part -/

/-- Claim C4 amended: generate-then-extract preserves node ids, edge
(source, target) pairs, and roles, for every well-formed FlowGraph whose
roles are stable under the extractor's classification.  Well-formed:
node keys nonempty, distinct, not the reserved "0"/"1", each FlowNode's
id equal to its key; edge ids nonempty, mutually distinct, distinct from
node keys and the reserved ids; edge endpoints nonempty with distinct
(source, target) pairs.  Role-stable: each role equals the degree-refined
style role (under which END's ellipse style re-reads as START). -/
theorem c4_amended_roundtrip (g : FlowGraph)
    (hids : ∀ p ∈ g.nodes, p.2.id = p.1)
    (hkeysnd : (g.nodes.map Prod.fst).Nodup)
    (hkeyok : ∀ p ∈ g.nodes, p.1 ≠ "" ∧ p.1 ≠ "0" ∧ p.1 ≠ "1")
    (heidsnd : (g.edges.map FlowEdge.id).Nodup)
    (heidok : ∀ e ∈ g.edges, e.id ≠ "" ∧ e.id ≠ "0" ∧ e.id ≠ "1" ∧
      e.id ∉ g.nodes.map Prod.fst)
    (hends : ∀ e ∈ g.edges, e.source_id ≠ "" ∧ e.target_id ≠ "")
    (hpairs : (g.edges.map pairOf).Nodup)
    (hroles : ∀ p ∈ g.nodes, p.2.node_type =
      (if DrawioParser.outDeg g p.1 = 0 ∧ 0 < DrawioParser.inDeg g p.1 then NodeType.END
       else if DrawioParser.inDeg g p.1 = 0 ∧ 0 < DrawioParser.outDeg g p.1 then
         NodeType.START
       else DrawioParser.styleClass (DrawioGenerator.node_style p.2.node_type))) :
    ∃ g2, DrawioParser.parse (DrawioGenerator.generate g) = Except.ok g2 ∧
      g2.nodes.map Prod.fst = g.nodes.map Prod.fst ∧
      g2.edges.map pairOf = g.edges.map pairOf ∧
      ∀ k n n2, (k, n) ∈ g.nodes → (k, n2) ∈ g2.nodes →
        n2.node_type = n.node_type := by
  set M : List (String × Element) :=
    ("0", DrawioGenerator.cell0) :: ("1", DrawioGenerator.cell1) ::
      (g.nodes.map (fun p => (p.1, DrawioGenerator.write_node p.2)) ++
       g.edges.map (fun e => (e.id, DrawioGenerator.write_edge e))) with hMdef
  have hid1 : ∀ c ∈ DrawioGenerator.generate g, c.id ≠ none ∧ c.id ≠ some "" := by
    intro c hc
    rcases List.mem_append.mp hc with h1 | hB
    · rcases List.mem_append.mp h1 with h01 | hA
      · rcases List.mem_cons.mp h01 with h | h
        · rw [h]
          exact ⟨(by decide), (by decide)⟩
        · rcases List.mem_cons.mp h with h2 | h2
          · rw [h2]
            exact ⟨(by decide), (by decide)⟩
          · cases h2
      · obtain ⟨p, hp, hpc⟩ := List.mem_map.mp hA
        rw [← hpc]
        refine ⟨(by intro hcon; cases hcon), ?_⟩
        show some p.2.id ≠ some ""
        intro hcon
        injection hcon with hcon2
        exact (hkeyok p hp).1 (by rw [← hids p hp]; exact hcon2)
    · obtain ⟨e, heg, hec⟩ := List.mem_map.mp hB
      rw [← hec]
      refine ⟨(by intro hcon; cases hcon), ?_⟩
      show some e.id ≠ some ""
      intro hcon
      injection hcon with hcon2
      exact (heidok e heg).1 hcon2
  have hidmap : (DrawioGenerator.generate g).map (fun c => c.id) =
      some "0" :: some "1" ::
        (g.nodes.map (fun p => (some p.1 : Option String)) ++
         g.edges.map (fun e => (some e.id : Option String))) := by
    show ([DrawioGenerator.cell0, DrawioGenerator.cell1] ++
        g.nodes.map (fun p => DrawioGenerator.write_node p.2) ++
        g.edges.map DrawioGenerator.write_edge).map (fun c => c.id) = _
    rw [List.map_append, List.map_append, List.map_map, List.map_map]
    have h1 : g.nodes.map ((fun (c : Element) => c.id) ∘
        (fun p => DrawioGenerator.write_node p.2)) =
        g.nodes.map (fun p => (some p.1 : Option String)) := by
      apply List.map_congr_left
      intro p hp
      show some p.2.id = some p.1
      rw [hids p hp]
    have h2 : g.edges.map ((fun (c : Element) => c.id) ∘ DrawioGenerator.write_edge) =
        g.edges.map (fun e => (some e.id : Option String)) :=
      List.map_congr_left (fun e _ => rfl)
    rw [h1, h2]
    rfl
  have hallkeys : ("0" :: "1" ::
      (g.nodes.map Prod.fst ++ g.edges.map FlowEdge.id)).Nodup := by
    rw [List.nodup_cons, List.nodup_cons]
    refine ⟨?_, ?_, ?_⟩
    · intro hcon
      rcases List.mem_cons.mp hcon with h01 | hrest
      · exact absurd h01 (by decide)
      · rcases List.mem_append.mp hrest with hk | he
        · obtain ⟨p, hp, hp2⟩ := List.mem_map.mp hk
          exact (hkeyok p hp).2.1 hp2
        · obtain ⟨e, heM, he2⟩ := List.mem_map.mp he
          exact (heidok e heM).2.1 he2
    · intro hcon
      rcases List.mem_append.mp hcon with hk | he
      · obtain ⟨p, hp, hp2⟩ := List.mem_map.mp hk
        exact (hkeyok p hp).2.2 hp2
      · obtain ⟨e, heM, he2⟩ := List.mem_map.mp he
        exact (heidok e heM).2.2.1 he2
    · rw [List.nodup_append]
      refine ⟨hkeysnd, heidsnd, ?_⟩
      intro k hk he
      obtain ⟨e, heM, he2⟩ := List.mem_map.mp he
      exact (heidok e heM).2.2.2 (he2 ▸ hk)
  have hid3 : ((DrawioGenerator.generate g).map (fun c => c.id)).Nodup := by
    rw [hidmap]
    have hsome : (("0" :: "1" ::
        (g.nodes.map Prod.fst ++ g.edges.map FlowEdge.id)).map
          (fun s => (some s : Option String))).Nodup :=
      List.Nodup.map (fun a b hab => Option.some.inj hab) hallkeys
    rw [List.map_cons, List.map_cons, List.map_append, List.map_map, List.map_map]
      at hsome
    exact hsome
  have hM : DrawioParser.buildCellMap (DrawioGenerator.generate g) = M := by
    rw [DrawioParser.buildCellMap]
    rw [DrawioParser.buildCellMapGo_fresh (DrawioGenerator.generate g) [] hid1
      (fun c _ p hp => absurd hp (by simp)) hid3]
    rw [List.nil_append, hMdef]
    show ([DrawioGenerator.cell0, DrawioGenerator.cell1] ++
        g.nodes.map (fun p => DrawioGenerator.write_node p.2) ++
        g.edges.map DrawioGenerator.write_edge).map (fun c => (c.id.getD "", c)) = _
    rw [List.map_append, List.map_append, List.map_map, List.map_map]
    have h1 : g.nodes.map ((fun (c : Element) => (c.id.getD "", c)) ∘
        (fun p => DrawioGenerator.write_node p.2)) =
        g.nodes.map (fun p => (p.1, DrawioGenerator.write_node p.2)) := by
      apply List.map_congr_left
      intro p hp
      show (p.2.id, DrawioGenerator.write_node p.2) = (p.1, DrawioGenerator.write_node p.2)
      rw [hids p hp]
    have h2 : g.edges.map ((fun (c : Element) => (c.id.getD "", c)) ∘
        DrawioGenerator.write_edge) =
        g.edges.map (fun e => (e.id, DrawioGenerator.write_edge e)) :=
      List.map_congr_left (fun e _ => rfl)
    rw [h1, h2]
    rfl
  have hcondN : ∀ p ∈ g.nodes, p.2.id = p.1 ∧ p.1 ≠ "0" ∧ p.1 ≠ "1" ∧
      alist_hasKey ({ nodes := [], edges := [] } : FlowGraph).nodes p.1 = false :=
    fun p hp => ⟨hids p hp, (hkeyok p hp).2.1, (hkeyok p hp).2.2, rfl⟩
  obtain ⟨ns2, hrecN, hfa⟩ := DrawioParser.processCells_node_phase M g.nodes
    { nodes := [], edges := [] } hcondN hkeysnd
  have hcondE : ∀ e ∈ g.edges, pairOf e ∉
      (({ nodes := [] ++ ns2, edges := [] } : FlowGraph)).edges.map pairOf :=
    fun e _ hcon => absurd hcon (by simp)
  have hrecE := DrawioParser.processCells_edge_phase M g.edges
    { nodes := [] ++ ns2, edges := [] } hends hpairs hcondE
  set EL : List FlowEdge :=
    (([] ++ g.edges.map (fun (e : FlowEdge) =>
        DrawioParser.mkEdge e.id (DrawioGenerator.write_edge e))).map
      (DrawioParser.extract_edge_label M)) with hELdef
  set G2 : FlowGraph := { nodes := [] ++ ns2, edges := EL } with hG2def
  have hproc : DrawioParser.processCells M M { nodes := [], edges := [] } =
      Except.ok { nodes := [] ++ ns2, edges := ([] ++
        g.edges.map (fun e => DrawioParser.mkEdge e.id (DrawioGenerator.write_edge e))) } := by
    show DrawioParser.processCells M
      ([("0", DrawioGenerator.cell0), ("1", DrawioGenerator.cell1)] ++
        (g.nodes.map (fun p => (p.1, DrawioGenerator.write_node p.2)) ++
         g.edges.map (fun e => (e.id, DrawioGenerator.write_edge e))))
      { nodes := [], edges := [] } = _
    rw [DrawioParser.processCells_append, DrawioParser.processCells_cell01]
    show DrawioParser.processCells M
      (g.nodes.map (fun p => (p.1, DrawioGenerator.write_node p.2)) ++
       g.edges.map (fun e => (e.id, DrawioGenerator.write_edge e)))
      { nodes := [], edges := [] } = _
    rw [DrawioParser.processCells_append, hrecN]
    show DrawioParser.processCells M
      (g.edges.map (fun e => (e.id, DrawioGenerator.write_edge e)))
      { nodes := [] ++ ns2, edges := [] } = _
    rw [hrecE]
  have hparse : DrawioParser.parse (DrawioGenerator.generate g) =
      Except.ok (DrawioParser.infer_node_types G2) := by
    simp only [DrawioParser.parse]
    rw [hM, hproc]
  have hkeys2 : G2.nodes.map Prod.fst = g.nodes.map Prod.fst := by
    show ([] ++ ns2).map Prod.fst = _
    rw [List.nil_append]
    exact forall2_keys g.nodes ns2 hfa
  have hpairs2 : G2.edges.map pairOf = g.edges.map pairOf := by
    show (([] ++
        g.edges.map (fun (e : FlowEdge) =>
          DrawioParser.mkEdge e.id (DrawioGenerator.write_edge e))).map
        (DrawioParser.extract_edge_label M)).map pairOf = _
    rw [List.nil_append, List.map_map, List.map_map]
    apply List.map_congr_left
    intro e _
    show pairOf (DrawioParser.extract_edge_label M
      (DrawioParser.mkEdge e.id (DrawioGenerator.write_edge e))) = pairOf e
    rw [DrawioParser.pairOf_extract]
    rfl
  refine ⟨DrawioParser.infer_node_types G2, hparse, ?_, ?_, ?_⟩
  · rw [DrawioParser.infer_node_types_keys]
    exact hkeys2
  · show G2.edges.map pairOf = _
    exact hpairs2
  · intro k n n2 hpg hpG
    obtain ⟨n0, hn0, hneq⟩ := DrawioParser.infer_nodes_mem G2 k n2 hpG
    have hn0' : (k, n0) ∈ ns2 := hn0
    have hrole0 : n0.node_type =
        DrawioParser.styleClass (DrawioGenerator.node_style n.node_type) :=
      forall2_lookup g.nodes ns2 hfa k n n0 hkeysnd hpg hn0'
    have hnt : n2.node_type =
        (if DrawioParser.outDeg G2 k = 0 ∧ 0 < DrawioParser.inDeg G2 k then NodeType.END
         else if DrawioParser.inDeg G2 k = 0 ∧ 0 < DrawioParser.outDeg G2 k then
           NodeType.START
         else n0.node_type) := by
      rw [hneq]
    rw [DrawioParser.inDeg_congr_pairs G2 g hkeys2 hpairs2 k,
      DrawioParser.outDeg_congr_pairs G2 g hkeys2 hpairs2 k, hrole0] at hnt
    rw [hnt]
    exact (hroles (k, n) hpg).symm

/-- Claim C4 counterexample: the round-trip does not preserve roles in
general.  `gC4cex` holds a single isolated node of role END, yet
re-extracting the generated document classifies that node as START
(END and START share the ellipse style, and an isolated ellipse reads
as START). -/
theorem c4_cex_isolated_end_node :
    (alist_get "n1" gC4cex.nodes).map (fun n => n.node_type) = some NodeType.END ∧
    parsedRole (DrawioParser.parse (DrawioGenerator.generate gC4cex)) "n1" =
      some NodeType.START := by
  constructor
  · decide
  · decide

/-- Witness for the amended C4 theorem at the well-formed, role-stable
graph `gRT`: its round-trip preserves node keys, edge pairs and roles. -/
theorem c4_witness_check :
    ∃ g2, DrawioParser.parse (DrawioGenerator.generate gRT) = Except.ok g2 ∧
      g2.nodes.map Prod.fst = gRT.nodes.map Prod.fst ∧
      g2.edges.map pairOf = gRT.edges.map pairOf ∧
      ∀ k n n2, (k, n) ∈ gRT.nodes → (k, n2) ∈ g2.nodes →
        n2.node_type = n.node_type :=
  c4_amended_roundtrip gRT (by decide) (by decide) (by decide) (by decide)
    (by decide) (by decide) (by decide) (by decide)
